import Mathlib

/-!
Verification of the recursive workflow compiler (`src/wic/compiler.py`) of this
repository against its natural-language specification.

YAML values are embedded as the inductive `YVal`; Python's insertion-ordered
dictionaries are embedded as association structures whose update operation
(`YVal.mset`, `dSet`) replaces an existing key in place and otherwise appends,
exactly as Python `dict` assignment does.  Fallible Python code (`KeyError`,
`TypeError`, `ValueError`, `raise Exception`, failed `assert`) is embedded with
`Except String`.  Functions of this repository that are referenced by
`compiler.py` but are not under `src/` (`utils.py`, `inference.py`) are
modelled from the spec; each such definition says so in its doc comment.
-/

namespace Wic

/-! ## Definitions: the embedding of the compiler and of its data model -/

/-- A YAML value: null, scalar string, sequence or (insertion-ordered) mapping.
Sequences and mappings are given by a cons spine so that `DecidableEq` can be
derived structurally (and hence evaluates inside `decide`). -/
inductive YVal where
  | null : YVal
  | str (s : String) : YVal
  | int (n : Int) : YVal
  | lnil : YVal
  | lcons (hd tl : YVal) : YVal
  | mnil : YVal
  | mcons (k : String) (v tl : YVal) : YVal
deriving DecidableEq, Repr

/-- Keys of a YAML mapping spine, in insertion order (Python `list(d)`). -/
def YVal.mkeys : YVal → List String
  | .mcons k _ tl => k :: tl.mkeys
  | _ => []

/-- Lookup in a YAML mapping (Python `d.get(k)` / `k in d`). -/
def YVal.mget : YVal → String → Option YVal
  | .mcons k v tl, key => if k = key then some v else tl.mget key
  | _, _ => none

/-- Python `d[k] = v` on an insertion-ordered dict: replace the value in place
if the key exists (keeping its position), otherwise append at the end. -/
def YVal.mset : YVal → String → YVal → YVal
  | .mcons k v tl, key, w =>
      if k = key then .mcons k w tl else .mcons k v (tl.mset key w)
  | _, key, w => .mcons key w .mnil

/-- Build a mapping spine from an association list. -/
def YVal.ofMap (l : List (String × YVal)) : YVal :=
  l.foldr (fun p acc => .mcons p.1 p.2 acc) .mnil

/-- Build a sequence spine from a list. -/
def YVal.ofList (l : List YVal) : YVal :=
  l.foldr .lcons .lnil

/-- Build a sequence of scalar strings. -/
def YVal.ofStrList (l : List String) : YVal :=
  .ofList (l.map .str)

/-- Python truthiness of a YAML value: `None`, `""`, `[]` and `{}` are falsy,
everything else is truthy. -/
def YVal.truthy : YVal → Bool
  | .null => false
  | .str s => !s.data.isEmpty
  | .int n => n != 0
  | .lnil => false
  | .lcons _ _ => true
  | .mnil => false
  | .mcons _ _ _ => true

/-- Is this YAML value a mapping (a Python object with a `.get` method)? -/
def YVal.isMap : YVal → Bool
  | .mnil => true
  | .mcons _ _ _ => true
  | _ => false

/-- Lookup in a Python dict embedded as an association list. -/
def dGet {α : Type} : List (String × α) → String → Option α
  | [], _ => none
  | (k, v) :: tl, key => if k = key then some v else dGet tl key

/-- Python `d[k] = v` on an association list: replace in place or append. -/
def dSet {α : Type} : List (String × α) → String → α → List (String × α)
  | [], key, w => [(key, w)]
  | (k, v) :: tl, key, w =>
      if k = key then (k, w) :: tl else (k, v) :: dSet tl key w

/-- Python `k in d`. -/
def dHas {α : Type} (d : List (String × α)) (key : String) : Bool :=
  (dGet d key).isSome

/-- Does `sub` occur as a contiguous sublist of the second argument?
Python `sub in s` on strings, at the character-list level. -/
def listHasSub (sub : List Char) : List Char → Bool
  | [] => sub.isEmpty
  | c :: cs => sub.isPrefixOf (c :: cs) || listHasSub sub cs

/-- Python `sub in s` for strings. -/
def strHasSub (sub s : String) : Bool := listHasSub sub.data s.data

/-- Python `s[1:]`. -/
def strTail (s : String) : String := ⟨s.data.tail⟩

/-- Python `s.replace("?", "")`: remove every question mark. -/
def stripQ (s : String) : String := ⟨s.data.filter (fun c => c ≠ '?')⟩

/-- `pathlib.Path(s).stem` for path-free names as used by the compiler: the
name without its last extension; a dot in first position is not an
extension separator (`Path(".x").stem = ".x"`). -/
def pathStem (s : String) : String :=
  match s.data.reverse.dropWhile (fun c => c ≠ '.') with
  | [] => s
  | _ :: [] => s
  | _ :: rest => ⟨rest.reverse⟩

/-- Greedy left-to-right split on the literal separator `"___"`, keeping empty
pieces, exactly as Python `s.split("___")`.  Fuel-based so that it is
structurally recursive (and kernel-computable). -/
def splitTriUAux : Nat → List Char → List Char → List (List Char)
  | 0, _, acc => [acc.reverse]
  | _ + 1, [], acc => [acc.reverse]
  | fuel + 1, c :: cs, acc =>
    if c = '_' then
      match cs with
      | '_' :: '_' :: rest => acc.reverse :: splitTriUAux fuel rest []
      | _ => splitTriUAux fuel cs (c :: acc)
    else splitTriUAux fuel cs (c :: acc)

/-- Python `s.split("___")`. -/
def splitTriU (s : String) : List String :=
  (splitTriUAux (s.data.length + 1) s.data []).map List.asString

/-- Python `"___".join(l)`. -/
def joinTriU : List String → String
  | [] => ""
  | [s] => s
  | s :: rest => s ++ "___" ++ joinTriU rest

/-- Modelled from the spec: `utils.step_name_str` is referenced by
`compiler.py` but `utils.py` is not under `src/`; §4.1 gives the step-name
format `"<parent_stem>__step__<index>__<child_stem>"`. -/
def step_name_str (yaml_stem : String) (i : Nat) (step_key : String) : String :=
  yaml_stem ++ "__step__" ++ Nat.repr i ++ "__" ++ pathStem step_key

/-- Modelled from the spec (§4.2): `utils.partition_by_lowest_common_ancestor`
is referenced by `compiler.py` but `utils.py` is not under `src/`; it returns
the longest element-wise shared prefix of the two paths together with the
remaining tail of the first path. -/
def partition_by_lowest_common_ancestor :
    List String → List String → List String × List String
  | [], _ => ([], [])
  | a :: ta, [] => ([], a :: ta)
  | a :: ta, b :: tb =>
    if a = b then
      let p := partition_by_lowest_common_ancestor ta tb
      (a :: p.1, p.2)
    else ([], a :: ta)

/-- Modelled from the spec (§4.7 step 5.1): `utils.add_yamldict_keyval_in` is
referenced by `compiler.py` but `utils.py` is not under `src/`; it merges the
given key/value pair into the step body's `in` mapping, creating the mapping
when absent. -/
def add_yamldict_keyval_in (body : YVal) (key : String) (v : YVal) : YVal :=
  match body.mget "in" with
  | some m => body.mset "in" (m.mset key v)
  | none => body.mset "in" (YVal.mset .mnil key v)

/-- Modelled from the spec (§4.7 step 4.6): `utils.add_yamldict_keyval_out` is
referenced by `compiler.py` but `utils.py` is not under `src/`; it records the
tool's output ports as the step body's `out` list. -/
def add_yamldict_keyval_out (body : YVal) (outs : List String) : YVal :=
  body.mset "out" (YVal.ofStrList outs)

/-- Modelled from the spec (§4.7 step 1): `utils.extract_backend_steps` is
referenced by `compiler.py` but `utils.py` is not under `src/`; it extracts
backend-specific step expansions, and on documents without backend tags — the
only documents the spec describes — it is the identity. -/
def extract_backend_steps (t : YVal) : YVal := t

/-- Modelled from the spec (§8.4, "after removing `run:` keys from both") and
the use of `utils.recursively_delete_dict_key` in the embedding-independence
test: delete every `run` key of every mapping, at any depth. -/
def removeRunKeys : YVal → YVal
  | .mcons k v tl =>
      if k = "run" then removeRunKeys tl
      else .mcons k (removeRunKeys v) (removeRunKeys tl)
  | .lcons h t => .lcons (removeRunKeys h) (removeRunKeys t)
  | v => v

/-- Value of a list of decimal digit characters. -/
def digitsVal (cs : List Char) : Nat :=
  cs.foldl (fun a c => 10 * a + (c.toNat - 48)) 0

/-- Lines 398-405 of `compiler.py` (the loop body): fold the processed steps
into an insertion-ordered dict keyed by the mangled step names. -/
def steps_to_dict_go (yaml_stem : String) :
    Nat → List (String × YVal) → List (String × YVal) → List (String × YVal)
  | _, [], acc => acc
  | i, (k, b) :: rest, acc =>
      steps_to_dict_go yaml_stem (i + 1) rest (dSet acc (step_name_str yaml_stem i k) b)

/-- Lines 398-405 of `compiler.py`: convert the processed list of steps into a
mapping (`steps_dict`) keyed by the mangled step names. -/
def steps_to_dict (yaml_stem : String) (steps : List (String × YVal)) :
    List (String × YVal) :=
  steps_to_dict_go yaml_stem 0 steps []

/-- The accumulated Python-dict types threaded through a compilation frame. -/
abbrev Dict := List (String × YVal)

/-- The `$defs` table: name to (defining namespace path, defining port). -/
abbrev Defs := List (String × List String × String)

/-- The tool registry: stem to (run path, tool document). -/
abbrev Tools := List (String × String × YVal)

/-- The inputs-file accumulator: mangled name to (literal value, type). -/
abbrev InputsFile := List (String × YVal × String)

instance {ε α : Type} [DecidableEq ε] [DecidableEq α] : DecidableEq (Except ε α) :=
  fun x y =>
  match x, y with
  | .ok a, .ok b =>
    if h : a = b then .isTrue (by rw [h]) else .isFalse (fun he => h (by injection he))
  | .error a, .error b =>
    if h : a = b then .isTrue (by rw [h]) else .isFalse (fun he => h (by injection he))
  | .ok _, .error _ => .isFalse (fun he => Except.noConfusion he)
  | .error _, .ok _ => .isFalse (fun he => Except.noConfusion he)

/-- Python `m[k]`: `KeyError` when the key is absent. -/
def mgetE (m : YVal) (k : String) : Except String YVal :=
  match m.mget k with
  | some v => .ok v
  | none => .error ("KeyError: " ++ k)

/-- Line 137 of `compiler.py`, the `type` part of the per-port test:
`in_tool[arg]['type'][-1] == '?'` (KeyError when `type` is absent, IndexError
on an empty type string; the data model of §3 restricts `type` to strings). -/
def clt_type_optional (entry : YVal) : Except String Bool :=
  match entry.mget "type" with
  | none => .error "KeyError: type"
  | some (.str t) =>
    match t.data.getLast? with
    | none => .error "IndexError: string index out of range"
    | some c => .ok (c = '?')
  | some _ => .error "TypeError: type is not a string"

/-- Line 137 of `compiler.py`, the per-port test with Python's short-circuit
`or`: `in_tool[arg].get('default') or in_tool[arg]['type'][-1] == '?'`.
Note that `.get('default')` is a truthiness test, not a presence test. -/
def clt_arg_optional (entry : YVal) : Except String Bool :=
  if entry.isMap then
    match entry.mget "default" with
    | some d => if d.truthy then .ok true else clt_type_optional entry
    | none => clt_type_optional entry
  else .error "AttributeError: get"

/-- Line 137 of `compiler.py`: the list-comprehension filter over the tool's
input ports. -/
def args_required_clt (in_tool : YVal) : List String → Except String (List String)
  | [] => .ok []
  | k :: rest => do
    let entry ← mgetE in_tool k
    let opt ← clt_arg_optional entry
    let tl ← args_required_clt in_tool rest
    pure (if opt then tl else k :: tl)

/-- Lines 134-147 of `compiler.py` (without the Workflow `in:` replacement,
which is performed by the step processor): compute `args_required` from the
tool document, or fail on an unknown `class`. -/
def args_required_of (tool : YVal) : Except String (List String) := do
  let in_tool ← mgetE tool "inputs"
  let cls ← mgetE tool "class"
  if cls = .str "CommandLineTool" then
    args_required_clt in_tool in_tool.mkeys
  else if cls = .str "Workflow" then
    pure in_tool.mkeys
  else .error "Exception: Unknown class"

/-- The amended required-port predicate of claim C8: a `CommandLineTool` port
is required iff its entry carries no truthy `default` value and its `type`
string does not end in `?`. -/
def required_port (in_tool : YVal) (k : String) : Bool :=
  match in_tool.mget k with
  | some entry =>
    (match entry.mget "default" with
     | some d => !d.truthy
     | none => true) &&
    (match entry.mget "type" with
     | some (.str t) => !(t.data.getLast? == some '?')
     | _ => false)
  | none => false

/-- The scope-table state threaded through the provided-argument loop of one
step (lines 173-270 of `compiler.py`): the step body being rewritten, plus the
frame accumulators and the shared `$defs` table. -/
structure ArgState where
  body : YVal
  inputs_workflow : Dict
  inputs_file : InputsFile
  defs : Defs
  calls : Defs
  warnings : List String
deriving DecidableEq, Repr

/-- The common mutation of the literal branch (lines 262-266 of
`compiler.py`): allocate the mangled workflow input, record the literal in the
inputs-file table, and rewrite the step's value to the mangled name. -/
def literalUpdate (st : ArgState) (bin : YVal)
    (arg_key in_name in_type : String) (v : YVal) : ArgState :=
  { st with
    inputs_workflow := dSet st.inputs_workflow in_name
      (.mcons "type" (.str in_type) .mnil),
    inputs_file := dSet st.inputs_file in_name (v, in_type),
    body := st.body.mset "in" (bin.mset arg_key (.str in_name)) }

/-- Python `nss_def_tails[0] + '/' + '___'.join(nss_def_tails[1:] + [var])`
(line 243 / line 295 of `compiler.py`); IndexError on an empty list. -/
def var_slash_of (def_tails : List String) (var : String) : Except String String :=
  match def_tails with
  | [] => .error "IndexError: list index out of range"
  | d0 :: rest => .ok (d0 ++ "/" ++ joinTriU (rest ++ [var]))

/-- One iteration of the provided-argument loop (lines 173-270 of
`compiler.py`), processing the argument `arg_key` of the current step.
Graph-only statements (node/edge drawing) are omitted; `print` diagnostics are
collected in `warnings`. -/
def processArg (namespaces : List String) (step_name_i : String) (is_root : Bool)
    (in_tool : YVal) (st : ArgState) (arg_key : String) : Except String ArgState := do
  let bin ← mgetE st.body "in"
  let arg_val ← mgetE bin arg_key
  let in_name := step_name_i ++ "___" ++ arg_key
  let entry ← mgetE in_tool arg_key
  let tval ← mgetE entry "type"
  let in_type ← match tval with
    | .str t => Except.ok (stripQ t)
    | _ => Except.error "TypeError: replace on non-string"
  match arg_val with
  | .str s =>
    match s.data with
    | [] => .error "IndexError: string index out of range"
    | c :: rest =>
      if c = '&' then
        let name : String := ⟨rest⟩
        match dGet st.defs name with
        | some _ =>
          .error ("Exception: Error! Multiple definitions of &" ++ name ++ "!")
        | none => .ok { st with
            inputs_workflow := dSet st.inputs_workflow in_name
              (.mcons "type" (.str in_type) .mnil),
            inputs_file := dSet st.inputs_file in_name (.str name, in_type),
            body := st.body.mset "in" (bin.mset arg_key (.str in_name)),
            defs := dSet st.defs name (namespaces ++ [step_name_i], arg_key) }
      else if c = '*' then
        let name : String := ⟨rest⟩
        match dGet st.defs name with
        | none =>
          if is_root then
            .ok { st with
              warnings := st.warnings ++
                ["Error! No definition found for &" ++ name ++ "!",
                 "Creating the CWL input " ++ in_name ++ " anyway, but",
                 "without any corresponding input value this will fail validation!"],
              inputs_workflow := dSet st.inputs_workflow in_name
                (.mcons "type" (.str in_type) .mnil),
              body := st.body.mset "in" (bin.mset arg_key (.str in_name)) }
          else .ok st
        | some (nss_def_init, var) =>
          let nss_def := nss_def_init ++ (splitTriU var).dropLast
          let nss_call := namespaces ++ [step_name_i] ++ (splitTriU arg_key).dropLast
          let pd := partition_by_lowest_common_ancestor nss_def nss_call
          let pc := partition_by_lowest_common_ancestor nss_call nss_def
          if pd.1 = pc.1 then
            match pc.2 with
            | [] =>
              .error "Exception: Error! len(nss_call_tails) == 0! Please file a bug report!"
            | [_] => do
              let vs ← var_slash_of pd.2 var
              .ok { st with body := st.body.mset "in" (bin.mset arg_key (.str vs)) }
            | _ :: _ :: _ =>
              .ok { st with
                inputs_workflow := dSet st.inputs_workflow in_name
                  (.mcons "type" (.str in_type) .mnil),
                body := st.body.mset "in" (bin.mset arg_key (.str in_name)),
                calls := dSet st.calls in_name (nss_def_init, var) }
          else .error "AssertionError: nss_def_inits == nss_call_inits"
      else
        .ok (literalUpdate st bin arg_key in_name in_type arg_val)
  | .int _ => .error "TypeError: int is not subscriptable"
  | .null => .error "TypeError: NoneType is not subscriptable"
  | .lnil => .error "IndexError: list index out of range"
  | .lcons _ _ => .ok (literalUpdate st bin arg_key in_name in_type arg_val)
  | .mnil => .error "KeyError: 0"
  | .mcons _ _ _ => .error "KeyError: 0"

/-- The provided-argument loop (line 173 of `compiler.py`): process the
arguments in order; a raised exception aborts the loop, and — as in Python,
where the scope tables are mutated in place — the state reached at the moment
of the error is returned alongside it. -/
def processArgs (namespaces : List String) (step_name_i : String) (is_root : Bool)
    (in_tool : YVal) : List String → ArgState → Except (String × ArgState) ArgState
  | [], st => .ok st
  | k :: rest, st =>
    match processArg namespaces step_name_i is_root in_tool st k with
    | .ok st' => processArgs namespaces step_name_i is_root in_tool rest st'
    | .error e => .error (e, st)

/-- Witness for C8 (amended): a concrete `CommandLineTool` with one port
carrying a falsy default (`0`) and one port with an optional type. -/
def c8w_in_tool : YVal :=
  .mcons "p" (.mcons "type" (.str "int") (.mcons "default" (.int 0) .mnil))
    (.mcons "q" (.mcons "type" (.str "File?") .mnil) .mnil)

/-- Witness tool document for C8. -/
def c8w_tool : YVal :=
  .mcons "class" (.str "CommandLineTool") (.mcons "inputs" c8w_in_tool .mnil)

/-- C8 counterexample input: a `CommandLineTool` whose single port `p` has a
`default` entry with the Python-falsy value `0` and the non-optional type
`int`. -/
def c8_in_tool : YVal :=
  .mcons "p" (.mcons "type" (.str "int") (.mcons "default" (.int 0) .mnil)) .mnil

/-- C8 counterexample tool document. -/
def c8_tool : YVal :=
  .mcons "class" (.str "CommandLineTool") (.mcons "inputs" c8_in_tool .mnil)

/-- C2 counterexample frame: a non-root step with the single provided argument
`y` holding the unresolved call token `*missing`. -/
def c2_in_tool : YVal := .mcons "y" (.mcons "type" (.str "string") .mnil) .mnil

/-- C2 counterexample state: defs table empty, nothing accumulated yet. -/
def c2_state : ArgState :=
  { body := .mcons "in" (.mcons "y" (.str "*missing") .mnil) .mnil,
    inputs_workflow := [], inputs_file := [], defs := [], calls := [],
    warnings := [] }

/-- C7 witness state: one definition token `&z` on port `x`. -/
def c7_state : ArgState :=
  { body := .mcons "in" (.mcons "x" (.str "&z") .mnil) .mnil,
    inputs_workflow := [], inputs_file := [], defs := [], calls := [],
    warnings := [] }

/-- C7 witness tool inputs. -/
def c7_in_tool : YVal := .mcons "x" (.mcons "type" (.str "string") .mnil) .mnil

/-- Modelled from the spec (§4.5, §9.4): the type of a tool port entry with
optional markers stripped; type strings are compared as opaque tokens after
stripping `?`, and entries without a string `type` never match. -/
def entryTypeStr (entry : YVal) : Option String :=
  match entry.mget "type" with
  | some (.str t) => some (stripQ t)
  | _ => none

/-- Modelled from the spec (§4.5): scan the output ports in declaration order
and return the first whose stripped type equals `t`. -/
def first_matching_output_go (outs : YVal) : List String → String → Option String
  | [], _ => none
  | k :: rest, t =>
    match outs.mget k with
    | some e =>
      if entryTypeStr e = some t then some k
      else first_matching_output_go outs rest t
    | none => first_matching_output_go outs rest t

/-- Modelled from the spec (§4.5): the first type-matching output port of a
tool document, in declaration order. -/
def first_matching_output (tool : YVal) (t : String) : Option String :=
  match tool.mget "outputs" with
  | some outs => first_matching_output_go outs outs.mkeys t
  | none => none

/-- Modelled from the spec (§4.5): the matching output of candidate producer
step `j`, if any. -/
def producerOut (tools : Tools) (steps_keys : List String) (j : Nat) (t : String) :
    Option String :=
  match steps_keys.get? j with
  | some key =>
    match dGet tools (pathStem key) with
    | some te => first_matching_output te.2 t
    | none => none
  | none => none

/-- Modelled from the spec (§4.5): scan candidate producers in reverse index
order; the first argument is the exclusive upper bound (the current step
index), so candidates are `i-1, i-2, …, 0` and the most recent producer wins. -/
def find_producer (tools : Tools) (steps_keys : List String) :
    Nat → String → Option (Nat × String)
  | 0, _ => none
  | j + 1, t =>
    match producerOut tools steps_keys j t with
    | some q => some (j, q)
    | none => find_producer tools steps_keys j t

/-- Modelled from the spec (§4.5): `inference.perform_edge_inference` is
invoked by `compiler.py` (line 304) but `inference.py` is not under `src/`.
Either (a) wire the required input `arg_key` of step `i` to
`"<step_j>/<port_q>"` for the largest matching producer index `j < i`,
recording the consumed output in `vars_workflow_output_internal`; or (b)
promote it to a workflow input named `<step>___<port>`, recorded in
`inputs_workflow` only when the inputs-file does not already contain that
mangled name. -/
def perform_edge_inference (tools : Tools) (steps_keys : List String)
    (yaml_stem : String) (i : Nat) (body : YVal) (arg_key : String)
    (in_tool : YVal) (step_name_i : String) (inputs_workflow : Dict)
    (vars_internal : List String) (in_name_in_inputs_file : Bool) :
    YVal × Dict × List String :=
  let pt := match in_tool.mget arg_key with
    | some e => entryTypeStr e
    | none => none
  let promoted :=
    let in_name := step_name_i ++ "___" ++ arg_key
    (add_yamldict_keyval_in body arg_key (.str in_name),
     if in_name_in_inputs_file then inputs_workflow
     else dSet inputs_workflow in_name
       (.mcons "type" (.str (pt.getD "")) .mnil),
     vars_internal)
  match pt with
  | some t =>
    match find_producer tools steps_keys i t with
    | some (j, q) =>
      let out_var := step_name_str yaml_stem j ((steps_keys.get? j).getD "") ++ "/" ++ q
      (add_yamldict_keyval_in body arg_key (.str out_var),
       inputs_workflow, vars_internal ++ [out_var])
    | none => promoted
  | none => promoted

/-- C9 witness tool registry: two `CommandLineTool` producers; the second
(`tB`) declares a non-matching output before two matching ones. -/
def c9_tools : Tools :=
  [("tA", ("tA.cwl", .mcons "class" (.str "CommandLineTool")
      (.mcons "inputs" .mnil
        (.mcons "outputs" (.mcons "oa" (.mcons "type" (.str "File") .mnil) .mnil)
          .mnil)))),
   ("tB", ("tB.cwl", .mcons "class" (.str "CommandLineTool")
      (.mcons "inputs" .mnil
        (.mcons "outputs"
          (.mcons "on" (.mcons "type" (.str "int") .mnil)
            (.mcons "ob" (.mcons "type" (.str "File") .mnil)
              (.mcons "oc" (.mcons "type" (.str "File") .mnil) .mnil)))
          .mnil))))]

/-- C9 witness step keys. -/
def c9_steps_keys : List String := ["tA", "tB", "tC"]

/-- Items of a YAML mapping (Python `d.items()`). -/
def YVal.mitems : YVal → List (String × YVal)
  | .mcons k v tl => (k, v) :: tl.mitems
  | _ => []

/-- Python `d.update(other)`: fold the assignments in order. -/
def msetAll (m : YVal) (l : List (String × YVal)) : YVal :=
  l.foldl (fun acc p => acc.mset p.1 p.2) m

/-- Python `dict(l)` on a list whose elements are key/value pairs or strings:
a string element is iterated character by character and must have length 2.
Line 53 of `compiler.py` builds exactly such a mixed list, because
`list(subworkreqdict)` produces the dict's *keys* (strings), not its items. -/
def dictFromMixedGo (acc : Dict) :
    List (Sum (String × YVal) String) → Except String Dict
  | [] => .ok acc
  | .inl (k, v) :: rest => dictFromMixedGo (dSet acc k v) rest
  | .inr s :: rest =>
    match s.data with
    | [c1, c2] =>
      dictFromMixedGo (dSet acc (String.mk [c1]) (.str (String.mk [c2]))) rest
    | _ => .error "ValueError: dictionary update sequence element has wrong length"

/-- Python `dict(l)` for a mixed pair/string list. -/
def dictFromMixed (l : List (Sum (String × YVal) String)) : Except String Dict :=
  dictFromMixedGo [] l

/-- Line 48 of `compiler.py`, the comprehension inside `any(...)`: the class
flag of every non-sub step key (the whole list is built before `any`, so a
`KeyError` on any element is raised even if an earlier element was true). -/
def workflow_class_flags (tools : Tools) : List String → Except String (List Bool)
  | [] => .ok []
  | key :: rest => do
    let te ← (match dGet tools (pathStem key) with
      | some te => Except.ok te
      | none => Except.error ("KeyError: " ++ pathStem key))
    let cls ← mgetE te.2 "class"
    let tl ← workflow_class_flags tools rest
    pure (decide (cls = YVal.str "Workflow") :: tl)

/-- Line 48 of `compiler.py`: a `SubworkflowFeatureRequirement` is needed when
there is at least one sub-workflow reference, or (short-circuit `or`) some
referenced tool has class `Workflow`. -/
def subworkflow_req_needed (tools : Tools) (steps_keys subkeys : List String) :
    Except String Bool :=
  if !subkeys.isEmpty then .ok true
  else do
    let flags ← workflow_class_flags tools
      (steps_keys.filter (fun k => !subkeys.contains k))
    pure (flags.any id)

/-- Lines 49-56 of `compiler.py`: add the `SubworkflowFeatureRequirement` to
the document's `requirements`.  When a `requirements` mapping already exists
and does not yet contain the key, line 53 evaluates
`dict(list(requirements.items()) + list(subworkreqdict))`, whose last element
is the 29-character *key string*, so `dict` raises `ValueError`. -/
def add_subworkflow_requirement (doc : YVal) : Except String YVal :=
  let req := "SubworkflowFeatureRequirement"
  match doc.mget "requirements" with
  | some r =>
    if (r.mget req).isSome then .ok doc
    else if r.isMap then do
      let new_reqs ← dictFromMixed (r.mitems.map .inl ++ [.inr req])
      pure (doc.mset "requirements" (msetAll r new_reqs))
    else .error "AttributeError: items"
  | none =>
    .ok (doc.mset "requirements"
      (.mcons req (.mcons "class" (.str req) .mnil) .mnil))

/-- The per-frame result record returned by `compile_workflow` (line 425 of
`compiler.py`), with the graph and the inputs-file rendering omitted:
`(node_data, recursive_data_list)` is kept as the node fields plus the
`children` forest. -/
inductive RoseTree where
  | node (name : String) (compiled : YVal) (children : RoseTree) : RoseTree
  | fnil : RoseTree
  | fcons (hd tl : RoseTree) : RoseTree
deriving DecidableEq, Repr

/-- Build a forest spine from a list of trees. -/
def RoseTree.ofList : List RoseTree → RoseTree
  | [] => .fnil
  | h :: t => .fcons h (RoseTree.ofList t)

/-- The n-th tree of a forest spine. -/
def RoseTree.nthChild : RoseTree → Nat → Option RoseTree
  | .fcons h _, 0 => some h
  | .fcons _ t, n + 1 => t.nthChild n
  | _, _ => none

/-- The compiled document at a tree node. -/
def RoseTree.compiledOf : RoseTree → Option YVal
  | .node _ c _ => some c
  | _ => none

/-- The result of one recursive compilation frame (line 425 of `compiler.py`),
graph data omitted; `name` is the frame's `yaml_stem` and `compiled` the
elaborated document. -/
structure FrameOut where
  name : String
  compiled : YVal
  children : RoseTree
  inputs_workflow : Dict
  inputs_file : InputsFile
  vars_internal : List String
  calls : Defs
  warnings : List String
deriving DecidableEq, Repr

/-- Python `dict([(key, key) for key in args_required])` (line 145 of
`compiler.py`): the identity `in:` mapping of a `Workflow`-class step. -/
def mapIdentity (ks : List String) : YVal :=
  YVal.ofMap (ks.map (fun k => (k, .str k)))

/-- Lines 129-147 plus 156 plus 173-270 of `compiler.py`: compute
`args_provided` from the step body, compute `args_required` (replacing the
`in:` mapping of a `Workflow`-class step by the identity mapping *before* the
provided-argument loop), compute `sub_args_provided`, and run the
provided-argument loop. -/
def provided_phase (namespaces : List String) (step_name_i : String)
    (is_root : Bool) (tool : YVal) (st : ArgState) :
    Except (String × ArgState)
      (List String × List String × List String × ArgState) :=
  let args_provided : List String :=
    if st.body.truthy then
      match st.body.mget "in" with
      | some m => m.mkeys
      | none => []
    else []
  match args_required_of tool with
  | .error e => .error (e, st)
  | .ok args_required =>
    let st1 := if tool.mget "class" = some (.str "Workflow") then
        { st with body := st.body.mset "in" (mapIdentity args_required) }
      else st
    let sub_args := args_required.filter (fun a => dHas st1.calls a)
    match processArgs namespaces step_name_i is_root
        ((tool.mget "inputs").getD .mnil) args_provided st1 with
    | .error e => .error e
    | .ok st2 => .ok (args_provided, args_required, sub_args, st2)

/-- Lines 272-308 of `compiler.py`: the required-argument loop.  Explicitly
forwarded arguments (`sub_args_provided`) are wired to the definition site —
with no tail-length dispatch, unlike the provided-argument loop — and all
other unprovided required arguments go through edge inference. -/
def required_loop (tools : Tools) (steps_keys : List String) (yaml_stem : String)
    (i : Nat) (namespaces : List String) (step_name_i : String)
    (in_tool : YVal) (args_provided sub_args : List String) :
    List String → ArgState → List String →
      Except (String × ArgState × List String) (ArgState × List String)
  | [], st, vint => .ok (st, vint)
  | arg_key :: rest, st, vint =>
    if args_provided.contains arg_key then
      required_loop tools steps_keys yaml_stem i namespaces step_name_i in_tool
        args_provided sub_args rest st vint
    else if sub_args.contains arg_key then
      match dGet st.calls arg_key with
      | none => .error ("KeyError: " ++ arg_key, st, vint)
      | some (nss_def_init, var) =>
        let nss_def := nss_def_init ++ (splitTriU var).dropLast
        let nss_call := namespaces ++ [step_name_i] ++ (splitTriU arg_key).dropLast
        let pd := partition_by_lowest_common_ancestor nss_def nss_call
        let pc := partition_by_lowest_common_ancestor nss_call nss_def
        if pd.1 = pc.1 then
          match var_slash_of pd.2 var with
          | .error e => .error (e, st, vint)
          | .ok vs =>
            required_loop tools steps_keys yaml_stem i namespaces step_name_i
              in_tool args_provided sub_args rest
              { st with body := add_yamldict_keyval_in st.body arg_key (.str vs) }
              vint
        else .error ("AssertionError: nss_def_inits == nss_call_inits", st, vint)
    else
      let in_name := step_name_i ++ "___" ++ arg_key
      let r := perform_edge_inference tools steps_keys yaml_stem i st.body arg_key
        in_tool step_name_i st.inputs_workflow vint (dHas st.inputs_file in_name)
      required_loop tools steps_keys yaml_stem i namespaces step_name_i in_tool
        args_provided sub_args rest
        { st with body := r.1, inputs_workflow := r.2.1 } r.2.2

/-- The state threaded through the step loop of one frame. -/
structure LoopState where
  stepsAcc : List (String × YVal)
  inputs_workflow : Dict
  inputs_file : InputsFile
  vars_internal : List String
  calls : Defs
  defs : Defs
  tools : Tools
  children : List RoseTree
  warnings : List String
deriving DecidableEq, Repr

/-- Lines 111-315 of `compiler.py`: process one step (after any sub-workflow
recursion has been merged): tool lookup, `run:` tag, provided-argument phase,
required-argument loop, and `out:` tags. -/
def compile_one_step (namespaces : List String) (yaml_stem : String)
    (is_root : Bool) (steps_keys : List String) (i : Nat)
    (step_key : String) (body0 : YVal) (ls : LoopState) :
    Except (String × Defs × Tools) ((String × YVal) × LoopState) :=
  let stem := pathStem step_key
  let step_name_i := step_name_str yaml_stem i step_key
  match dGet ls.tools stem with
  | none => .error ("KeyError: " ++ stem, ls.defs, ls.tools)
  | some te =>
    let run_path := te.1
    let tool := te.2
    let body1 := if body0.truthy then
        (if (body0.mget "run").isSome then body0
         else body0.mset "run" (.str run_path))
      else YVal.mcons "run" (.str run_path) .mnil
    let st0 : ArgState :=
      { body := body1, inputs_workflow := ls.inputs_workflow,
        inputs_file := ls.inputs_file, defs := ls.defs, calls := ls.calls,
        warnings := ls.warnings }
    match provided_phase namespaces step_name_i is_root tool st0 with
    | .error (e, stE) => .error (e, stE.defs, ls.tools)
    | .ok (args_provided, args_required, sub_args, st1) =>
      match required_loop ls.tools steps_keys yaml_stem i namespaces step_name_i
          ((tool.mget "inputs").getD .mnil) args_provided sub_args
          args_required st1 ls.vars_internal with
      | .error (e, stE, _) => .error (e, stE.defs, ls.tools)
      | .ok (st2, vint2) =>
        match tool.mget "outputs" with
        | none => .error ("KeyError: outputs", st2.defs, ls.tools)
        | some outs =>
          let body3 := add_yamldict_keyval_out st2.body outs.mkeys
          .ok ((step_key, body3),
            { ls with
              inputs_workflow := st2.inputs_workflow,
              inputs_file := st2.inputs_file,
              vars_internal := vint2,
              calls := st2.calls,
              defs := st2.defs,
              warnings := st2.warnings })

/-- Lines 76-109 of `compiler.py` (the sub-workflow branch of the step loop):
recursively compile the child document, register its compiled document in the
tool registry under its stem, and merge the child's returned tables. -/
def merge_child_results (step_name_i stem : String) (ls : LoopState)
    (child : FrameOut) (defs2 : Defs) (tools2 : Tools) : LoopState :=
  { ls with
    defs := defs2,
    tools := dSet tools2 stem (stem ++ ".cwl", child.compiled),
    inputs_file := (child.inputs_file.map
      (fun p => (step_name_i ++ "___" ++ p.1, p.2))).foldl
      (fun acc p => dSet acc p.1 p.2) ls.inputs_file,
    vars_internal := ls.vars_internal ++ child.vars_internal,
    calls := child.calls.foldl (fun acc p => dSet acc p.1 p.2) ls.calls,
    children := ls.children ++ [RoseTree.node child.name child.compiled child.children],
    warnings := ls.warnings ++ child.warnings }

/-- Lines 76-315 of `compiler.py`: the step loop of one frame.  `recurse` is
the recursive compilation of a child document (always with `is_root = false`).
As in Python — where `vars_dollar_defs` and `tools` are mutated in place — the
shared tables are returned even when a fatal error aborts the loop. -/
def compile_steps
    (recurse : List String → Defs → Tools → String → YVal →
      (Except String FrameOut) × Defs × Tools)
    (yml_paths : List (String × YVal)) (namespaces : List String)
    (yaml_stem : String) (is_root : Bool) (subkeys : List String)
    (steps_keys : List String) :
    List (String × YVal) → Nat → LoopState →
      (Except String LoopState) × Defs × Tools
  | [], _, ls => (.ok ls, ls.defs, ls.tools)
  | (step_key, body0) :: rest, i, ls =>
    let stem := pathStem step_key
    let step_name_i := step_name_str yaml_stem i step_key
    let merged : (Except String LoopState) × Defs × Tools :=
      if subkeys.contains step_key then
        match dGet yml_paths stem with
        | none =>
          (.error ("Exception: Error! " ++ stem ++ " does not exist or is not a .yml file."),
           ls.defs, ls.tools)
        | some childDoc =>
          match recurse (namespaces ++ [step_name_i]) ls.defs ls.tools stem childDoc with
          | (.error e, defs2, tools2) => (.error e, defs2, tools2)
          | (.ok child, defs2, tools2) =>
            let ls2 := merge_child_results step_name_i stem ls child defs2 tools2
            (.ok ls2, ls2.defs, ls2.tools)
      else (.ok ls, ls.defs, ls.tools)
    match merged with
    | (.error e, d, t) => (.error e, d, t)
    | (.ok ls1, _, _) =>
      match compile_one_step namespaces yaml_stem is_root steps_keys i
          step_key body0 ls1 with
      | .error (e, d, t) => (.error e, d, t)
      | .ok (stepDone, ls2) =>
        compile_steps recurse yml_paths namespaces yaml_stem is_root subkeys
          steps_keys rest (i + 1)
          { ls2 with stepsAcc := ls2.stepsAcc ++ [stepDone] }

/-- Lines 342-350 of `compiler.py`: build the compiled `inputs:` section from
`inputs_workflow`, with the `mdin`-plus-`File` format heuristic. -/
def build_inputs_go : List (String × YVal) → YVal → Except String YVal
  | [], acc => .ok acc
  | (k, v) :: rest, acc => do
    let tv ← mgetE v "type"
    let cond := strHasSub "mdin" k &&
      (match tv with
       | .str t => strHasSub "File" t
       | _ => false)
    build_inputs_go rest
      (acc.mset k (if cond
        then v.mset "format" (.str "https://edamontology.org/format_2330")
        else tv))

/-- The compiled `inputs:` section. -/
def build_inputs (iw : Dict) : Except String YVal := build_inputs_go iw .mnil

/-- A YAML sequence of scalar strings, as a Lean list. -/
def strListOfY : YVal → Except String (List String)
  | .lnil => .ok []
  | .lcons (.str s) tl => do
    let r ← strListOfY tl
    pure (s :: r)
  | _ => .error "TypeError: expected a list of strings"

/-- Lines 355-394 of `compiler.py`, inner loop: the `outputs:` entries of one
step (skipping the `dhdl`/`xtc` blacklist and — unless intermediate files are
requested — internally consumed outputs). -/
def build_outputs_step (step_name_i : String) (out_keys : List String)
    (vint : List String) (imf : Bool) (acc : YVal) : YVal :=
  out_keys.foldl (fun acc out_key =>
    if strHasSub "dhdl" out_key || strHasSub "xtc" out_key then acc
    else
      let out_var := step_name_i ++ "/" ++ out_key
      if vint.contains out_var && !imf then acc
      else acc.mset (step_name_i ++ "___" ++ out_key)
        (.mcons "type" (.str "File")
          (.mcons "outputSource" (.str out_var) .mnil))) acc

/-- Lines 352-396 of `compiler.py`: the compiled `outputs:` section. -/
def build_outputs_go (yaml_stem : String) (vint : List String) (imf : Bool) :
    Nat → List (String × YVal) → YVal → Except String YVal
  | _, [], acc => .ok acc
  | i, (step_key, body) :: rest, acc => do
    let outv ← mgetE body "out"
    let out_keys ← strListOfY outv
    build_outputs_go yaml_stem vint imf (i + 1) rest
      (build_outputs_step (step_name_str yaml_stem i step_key) out_keys vint imf acc)

/-- The input `steps:` sequence as a list of (key, body) pairs; the data model
(§3) guarantees single-key step mappings. -/
def stepsListOfY : YVal → Except String (List (String × YVal))
  | .lnil => .ok []
  | .lcons (.mcons k b .mnil) tl => do
    let r ← stepsListOfY tl
    pure ((k, b) :: r)
  | _ => .error "malformed steps"

/-- One frame of `compile_workflow` (lines 19-425 of `compiler.py`), with the
recursion over sub-workflows abstracted as `recurse`.  Graph construction, the
inputs-file rendering and the optional validator subprocess are omitted; the
`cwl_output_intermediate_files` flag is `imf`.  The shared `$defs` table and
tool registry are returned even on a fatal error, as in Python, where the
caller's dict objects were mutated in place. -/
def compile_frame
    (recurse : List String → Defs → Tools → String → YVal →
      (Except String FrameOut) × Defs × Tools)
    (imf : Bool) (yml_paths : List (String × YVal)) (namespaces : List String)
    (defs : Defs) (tools : Tools) (is_root : Bool) (yaml_stem : String)
    (doc : YVal) : (Except String FrameOut) × Defs × Tools :=
  let doc0 := extract_backend_steps doc
  match doc0.mget "steps" with
  | none => (.error "KeyError: steps", defs, tools)
  | some stepsY =>
    match stepsListOfY stepsY with
    | .error e => (.error e, defs, tools)
    | .ok steps =>
      let steps_keys := steps.map Prod.fst
      let subkeys := steps_keys.filter (fun k => !dHas tools k)
      let doc1 := (doc0.mset "cwlVersion" (.str "v1.0")).mset "class" (.str "Workflow")
      match subworkflow_req_needed tools steps_keys subkeys with
      | .error e => (.error e, defs, tools)
      | .ok needed =>
        match (if needed then add_subworkflow_requirement doc1 else .ok doc1) with
        | .error e => (.error e, defs, tools)
        | .ok doc2 =>
          let ls0 : LoopState :=
            { stepsAcc := [], inputs_workflow := [],
              inputs_file := [], vars_internal := [], calls := [], defs := defs,
              tools := tools, children := [], warnings := [] }
          match compile_steps recurse yml_paths namespaces yaml_stem is_root
              subkeys steps_keys steps 0 ls0 with
          | (.error e, d2, t2) => (.error e, d2, t2)
          | (.ok ls, d2, t2) =>
            match build_inputs ls.inputs_workflow with
            | .error e => (.error e, d2, t2)
            | .ok inputsY =>
              let vint := ls.vars_internal.eraseDups
              match build_outputs_go yaml_stem vint imf 0 ls.stepsAcc .mnil with
              | .error e => (.error e, d2, t2)
              | .ok outputsY =>
                let doc3 := ((doc2.mset "inputs" inputsY).mset "outputs" outputsY).mset
                  "steps" (YVal.ofMap (steps_to_dict yaml_stem ls.stepsAcc))
                (.ok { name := yaml_stem, compiled := doc3,
                       children := RoseTree.ofList ls.children,
                       inputs_workflow := ls.inputs_workflow,
                       inputs_file := ls.inputs_file,
                       vars_internal := vint,
                       calls := ls.calls, warnings := ls.warnings }, d2, t2)

/-- `compile_workflow` (lines 19-425 of `compiler.py`): fuel-indexed recursion
over the sub-workflow tree; children are always compiled with
`is_root = false` (line 90). -/
def compile_workflow (imf : Bool) (yml_paths : List (String × YVal)) :
    Nat → List String → Defs → Tools → Bool → String → YVal →
      (Except String FrameOut) × Defs × Tools
  | 0, _, defs, tools, _, _, _ =>
    (.error "RecursionError: maximum recursion depth exceeded", defs, tools)
  | fuel + 1, namespaces, defs, tools, is_root, yaml_stem, doc =>
    compile_frame
      (fun ns d t s y => compile_workflow imf yml_paths fuel ns d t false s y)
      imf yml_paths namespaces defs tools is_root yaml_stem doc

/-- C1 base tool registry: two atomic CommandLineTools. -/
def c1_tools : Tools :=
  [("toolA", ("toolA.cwl", .mcons "class" (.str "CommandLineTool")
     (.mcons "inputs" (.mcons "x" (.mcons "type" (.str "string") .mnil) .mnil)
       (.mcons "outputs" (.mcons "oa" (.mcons "type" (.str "File") .mnil) .mnil)
         .mnil)))),
   ("toolB", ("toolB.cwl", .mcons "class" (.str "CommandLineTool")
     (.mcons "inputs" (.mcons "y" (.mcons "type" (.str "string") .mnil) .mnil)
       (.mcons "outputs" (.mcons "ob" (.mcons "type" (.str "File") .mnil) .mnil)
         .mnil))))]

/-- C1 root document `R.yml`: defines `&z` at the root, then embeds `S.yml`. -/
def c1_docR : YVal := .mcons "steps" (.lcons
    (.mcons "toolA" (.mcons "in" (.mcons "x" (.str "&z") .mnil) .mnil) .mnil)
    (.lcons (.mcons "S.yml" .null .mnil) .lnil)) .mnil

/-- C1 middle document `S.yml`: a single sub-workflow step `C.yml`. -/
def c1_docS : YVal := .mcons "steps" (.lcons (.mcons "C.yml" .null .mnil) .lnil) .mnil

/-- C1 leaf document `C.yml`: calls `*z`, whose definition is outside `S`. -/
def c1_docC : YVal := .mcons "steps" (.lcons
    (.mcons "toolB" (.mcons "in" (.mcons "y" (.str "*z") .mnil) .mnil) .mnil)
    .lnil) .mnil

/-- C1 file system: stem to document. -/
def c1_fs : List (String × YVal) := [("S", c1_docS), ("C", c1_docC)]

/-- The sub-document compiled for `S.yml` inside the compilation of the root
`R.yml` (the first child of the root's rose tree). -/
def c1_embedded_S_doc : YVal :=
  match (compile_workflow true c1_fs 5 [] [] c1_tools true "R" c1_docR).1 with
  | .ok fr =>
    match fr.children.nthChild 0 with
    | some t => (t.compiledOf).getD .null
    | none => .null
  | .error _ => .null

/-- The document produced by compiling `S.yml` standalone, as if it were the
root workflow (same initial registry, empty `$defs`, `is_root = true`). -/
def c1_standalone_S_doc : YVal :=
  match (compile_workflow true c1_fs 5 [] [] c1_tools true "S" c1_docS).1 with
  | .ok fr => fr.compiled
  | .error _ => .null

/-- The `in:` mapping of `S`'s single step in a compiled document. -/
def c1_sub_in (d : YVal) : Option YVal :=
  (d.mget "steps").bind (fun s =>
    (s.mget "S__step__0__C").bind (fun b => b.mget "in"))

/-- C3 failing input: a document that already carries a `requirements` mapping
(without `SubworkflowFeatureRequirement`) and references a sub-workflow. -/
def c3_doc : YVal :=
  .mcons "requirements"
    (.mcons "InlineJavascriptRequirement"
      (.mcons "class" (.str "InlineJavascriptRequirement") .mnil) .mnil)
    (.mcons "steps" (.lcons (.mcons "S.yml" .null .mnil) .lnil) .mnil)

/-- C3 input whose `requirements` already contain the key (the guarded
no-op path). -/
def c3_doc2 : YVal :=
  .mcons "requirements"
    (.mcons "SubworkflowFeatureRequirement"
      (.mcons "class" (.str "SubworkflowFeatureRequirement") .mnil) .mnil)
    (.mcons "steps" (.lcons (.mcons "S.yml" .null .mnil) .lnil) .mnil)

/-- The `requirements` of the document compiled from `c3_doc2`. -/
def c3_doc2_reqs : Option YVal :=
  match (compile_workflow true c1_fs 5 [] [] c1_tools true "Q" c3_doc2).1 with
  | .ok fr => fr.compiled.mget "requirements"
  | .error _ => none

/-- C4 failing input: two steps of the root document both define `&a`. -/
def c4_doc : YVal :=
  .mcons "steps" (.lcons
    (.mcons "toolA" (.mcons "in" (.mcons "x" (.str "&a") .mnil) .mnil) .mnil)
    (.lcons
      (.mcons "toolA" (.mcons "in" (.mcons "x" (.str "&a") .mnil) .mnil) .mnil)
      .lnil)) .mnil

/-- The full result (including the shared tables) of compiling `c4_doc`. -/
def c4_result : (Except String FrameOut) × Defs × Tools :=
  compile_workflow true c1_fs 5 [] [] c1_tools true "D" c4_doc

/-- C4 amended-witness tool inputs. -/
def c4w_in_tool : YVal :=
  .mcons "x" (.mcons "type" (.str "string") .mnil)
    (.mcons "w" (.mcons "type" (.str "string") .mnil) .mnil)

/-- C4 amended-witness state: both ports define `&a`. -/
def c4w_st : ArgState :=
  { body := .mcons "in" (.mcons "x" (.str "&a") (.mcons "w" (.str "&a") .mnil)) .mnil,
    inputs_workflow := [], inputs_file := [], defs := [], calls := [],
    warnings := [] }

/-- The state after the successful first definition of `&a`. -/
def c4w_st1 : ArgState :=
  (processArgs [] "D__step__0__t" true c4w_in_tool ["x"] c4w_st).toOption.getD c4w_st

/-- C10 witness tool: a `Workflow`-class tool with two input ports. -/
def c10_in_tool : YVal :=
  .mcons "a" (.mcons "type" (.str "File") .mnil)
    (.mcons "b" (.mcons "type" (.str "string") .mnil) .mnil)

/-- C10 witness tool document. -/
def c10_tool : YVal :=
  .mcons "class" (.str "Workflow") (.mcons "inputs" c10_in_tool .mnil)

/-- C10 witness provided mapping: the author wrote a definition token on port
`a`; it will be discarded. -/
def c10_m : YVal := .mcons "a" (.str "&ignored") .mnil

/-- C10 witness state. -/
def c10_st : ArgState :=
  { body := .mcons "in" c10_m .mnil,
    inputs_workflow := [], inputs_file := [], defs := [], calls := [],
    warnings := [] }

/-! ## Theorems -/

theorem partition_append (A B : List String) :
    (partition_by_lowest_common_ancestor A B).1
      ++ (partition_by_lowest_common_ancestor A B).2 = A := by
  induction A generalizing B with
  | nil => cases B <;> simp [partition_by_lowest_common_ancestor]
  | cons a ta ih =>
    cases B with
    | nil => simp [partition_by_lowest_common_ancestor]
    | cons b tb =>
      by_cases h : a = b <;>
        simp [partition_by_lowest_common_ancestor, h, ih]

theorem partition_common_isPrefix_left (A B : List String) :
    (partition_by_lowest_common_ancestor A B).1 <+: A :=
  ⟨(partition_by_lowest_common_ancestor A B).2, partition_append A B⟩

theorem partition_common_isPrefix_right (A B : List String) :
    (partition_by_lowest_common_ancestor A B).1 <+: B := by
  induction A generalizing B with
  | nil => cases B <;> simp [partition_by_lowest_common_ancestor]
  | cons a ta ih =>
    cases B with
    | nil => simp [partition_by_lowest_common_ancestor]
    | cons b tb =>
      by_cases h : a = b
      · subst h
        simpa [partition_by_lowest_common_ancestor] using ih tb
      · simp [partition_by_lowest_common_ancestor, h]

theorem partition_common_longest (A B P : List String)
    (hA : P <+: A) (hB : P <+: B) :
    P <+: (partition_by_lowest_common_ancestor A B).1 := by
  induction P generalizing A B with
  | nil => exact List.nil_prefix
  | cons p tp ih =>
    obtain ⟨ra, ha⟩ := hA
    obtain ⟨rb, hb⟩ := hB
    subst ha hb
    obtain ⟨t, ht⟩ := ih (tp ++ ra) (tp ++ rb) ⟨ra, rfl⟩ ⟨rb, rfl⟩
    refine ⟨t, ?_⟩
    show p :: tp ++ t
        = (partition_by_lowest_common_ancestor (p :: (tp ++ ra)) (p :: (tp ++ rb))).1
    have hstep : partition_by_lowest_common_ancestor (p :: (tp ++ ra)) (p :: (tp ++ rb))
        = (p :: (partition_by_lowest_common_ancestor (tp ++ ra) (tp ++ rb)).1,
           (partition_by_lowest_common_ancestor (tp ++ ra) (tp ++ rb)).2) := by
      simp [partition_by_lowest_common_ancestor]
    rw [hstep, List.cons_append, ht]

theorem partition_common_comm (A B : List String) :
    (partition_by_lowest_common_ancestor A B).1
      = (partition_by_lowest_common_ancestor B A).1 := by
  induction A generalizing B with
  | nil => cases B <;> simp [partition_by_lowest_common_ancestor]
  | cons a ta ih =>
    cases B with
    | nil => simp [partition_by_lowest_common_ancestor]
    | cons b tb =>
      by_cases h : a = b
      · subst h
        simp [partition_by_lowest_common_ancestor, ih]
      · have h' : ¬b = a := fun hba => h hba.symm
        simp [partition_by_lowest_common_ancestor, h, h']

theorem partition_tail_eq_drop (A B : List String) :
    (partition_by_lowest_common_ancestor A B).2
      = A.drop (partition_by_lowest_common_ancestor A B).1.length := by
  have h := partition_append A B
  rcases hp : partition_by_lowest_common_ancestor A B with ⟨c, t⟩
  rw [hp] at h
  have h' : c ++ t = A := h
  show t = List.drop c.length A
  rw [← h']
  exact (List.drop_left c t).symm

/-- C5: `partition(A, B)` returns `(common, tail_A)` where `common` is the
longest element-wise-equal shared prefix of `A` and `B` and `tail_A` is `A`
with that prefix removed, and the `common` component of `partition(A, B)`
equals the `common` component of `partition(B, A)`. -/
theorem C5_partition_lca_spec (A B : List String) :
    (partition_by_lowest_common_ancestor A B).1 <+: A ∧
    (partition_by_lowest_common_ancestor A B).1 <+: B ∧
    (∀ P : List String, P <+: A → P <+: B →
      P <+: (partition_by_lowest_common_ancestor A B).1) ∧
    (partition_by_lowest_common_ancestor A B).2
      = A.drop (partition_by_lowest_common_ancestor A B).1.length ∧
    (partition_by_lowest_common_ancestor A B).1
      = (partition_by_lowest_common_ancestor B A).1 :=
  ⟨partition_common_isPrefix_left A B,
   partition_common_isPrefix_right A B,
   fun P hA hB => partition_common_longest A B P hA hB,
   partition_tail_eq_drop A B,
   partition_common_comm A B⟩

theorem toDigitsCore_append_acc (f : Nat) :
    ∀ (n : Nat) (ds : List Char), n < f →
      Nat.toDigitsCore 10 f n ds = Nat.toDigitsCore 10 f n [] ++ ds := by
  induction f with
  | zero => intro n ds h; omega
  | succ f ih =>
    intro n ds hf
    simp only [Nat.toDigitsCore]
    by_cases h10 : n / 10 = 0
    · simp [h10]
    · have hn : 0 < n := by
        rcases Nat.eq_zero_or_pos n with h0 | h0
        · subst h0; simp at h10
        · exact h0
      have hlt : n / 10 < f := by
        have h1 : n / 10 < n := Nat.div_lt_self hn (by norm_num)
        omega
      simp only [h10, if_false]
      rw [ih (n / 10) (Nat.digitChar (n % 10) :: ds) hlt,
          ih (n / 10) [Nat.digitChar (n % 10)] hlt, List.append_assoc]
      simp

theorem digitChar_toNat_sub (m : Nat) (h : m < 10) :
    (Nat.digitChar m).toNat - 48 = m := by
  interval_cases m <;> decide

theorem digitsVal_toDigitsCore (f : Nat) :
    ∀ n, n < f → digitsVal (Nat.toDigitsCore 10 f n []) = n := by
  induction f with
  | zero => intro n h; omega
  | succ f ih =>
    intro n hf
    simp only [Nat.toDigitsCore]
    by_cases h10 : n / 10 = 0
    · have hlt10 : n < 10 := by
        rcases Nat.lt_or_ge n 10 with h | h
        · exact h
        · exact absurd h10 (by
            have : 0 < n / 10 := Nat.div_pos h (by norm_num)
            omega)
      simp only [h10, if_true]
      show digitsVal [Nat.digitChar (n % 10)] = n
      have : digitsVal [Nat.digitChar (n % 10)] = (Nat.digitChar (n % 10)).toNat - 48 := by
        simp [digitsVal]
      rw [this, digitChar_toNat_sub (n % 10) (Nat.mod_lt n (by norm_num)),
          Nat.mod_eq_of_lt hlt10]
    · have hn : 0 < n := by
        rcases Nat.eq_zero_or_pos n with h0 | h0
        · subst h0; simp at h10
        · exact h0
      have hlt : n / 10 < f := by
        have h1 : n / 10 < n := Nat.div_lt_self hn (by norm_num)
        omega
      simp only [h10, if_false]
      rw [toDigitsCore_append_acc f (n / 10) [Nat.digitChar (n % 10)] hlt]
      have hfold : digitsVal (Nat.toDigitsCore 10 f (n / 10) [] ++ [Nat.digitChar (n % 10)])
          = 10 * digitsVal (Nat.toDigitsCore 10 f (n / 10) []) + ((Nat.digitChar (n % 10)).toNat - 48) := by
        simp [digitsVal, List.foldl_append]
      rw [hfold, ih (n / 10) hlt, digitChar_toNat_sub (n % 10) (Nat.mod_lt n (by norm_num))]
      exact Nat.div_add_mod n 10

theorem toDigitsCore_all_digits (f : Nat) :
    ∀ (n : Nat) (ds : List Char), (∀ c ∈ ds, c.isDigit = true) →
      ∀ c ∈ Nat.toDigitsCore 10 f n ds, c.isDigit = true := by
  induction f with
  | zero => intro n ds hds; simpa [Nat.toDigitsCore] using hds
  | succ f ih =>
    intro n ds hds c
    have hdigit : (Nat.digitChar (n % 10)).isDigit = true := by
      have h : n % 10 < 10 := Nat.mod_lt n (by norm_num)
      interval_cases h10 : (n % 10) <;> decide
    simp only [Nat.toDigitsCore]
    by_cases h10 : n / 10 = 0
    · simp only [h10, if_true]
      intro hc
      rcases List.mem_cons.mp hc with h | h
      · subst h; exact hdigit
      · exact hds c h
    · simp only [h10, if_false]
      refine ih (n / 10) (Nat.digitChar (n % 10) :: ds) ?_ c
      intro d hd
      rcases List.mem_cons.mp hd with h | h
      · subst h; exact hdigit
      · exact hds d h

theorem repr_data_all_digits (n : Nat) :
    ∀ c ∈ (Nat.repr n).data, c.isDigit = true :=
  toDigitsCore_all_digits (n + 1) n [] (by simp)

theorem repr_data_val (n : Nat) : digitsVal (Nat.repr n).data = n :=
  digitsVal_toDigitsCore (n + 1) n (Nat.lt_succ_self n)

theorem nat_repr_injective {m n : Nat} (h : Nat.repr m = Nat.repr n) : m = n := by
  have h2 := congrArg (fun s => digitsVal s.data) h
  simpa [repr_data_val] using h2

/-- Two all-digit prefixes followed by an underscore separator parse
unambiguously. -/
theorem digits_sep_parse :
    ∀ (a b x y : List Char), (∀ c ∈ a, c.isDigit = true) →
      (∀ c ∈ b, c.isDigit = true) →
      a ++ '_' :: x = b ++ '_' :: y → a = b ∧ x = y := by
  intro a
  induction a with
  | nil =>
    intro b x y _ hb h
    cases b with
    | nil => simpa using h
    | cons c cb =>
      exfalso
      have hc : c = '_' := by
        have := congrArg (fun l => l.head?) h
        simpa using this.symm
      have := hb c (List.mem_cons_self c cb)
      rw [hc] at this
      simp [Char.isDigit] at this
  | cons c ca ih =>
    intro b x y ha hb h
    cases b with
    | nil =>
      exfalso
      have hc : c = '_' := by
        have := congrArg (fun l => l.head?) h
        simpa using this
      have := ha c (List.mem_cons_self c ca)
      rw [hc] at this
      simp [Char.isDigit] at this
    | cons d db =>
      simp only [List.cons_append, List.cons.injEq] at h
      obtain ⟨hcd, hrest⟩ := h
      obtain ⟨h1, h2⟩ := ih db x y (fun e he => ha e (List.mem_cons_of_mem c he))
        (fun e he => hb e (List.mem_cons_of_mem d he)) hrest
      exact ⟨by rw [hcd, h1], h2⟩

theorem step_name_str_index_inj (yaml_stem : String) {i j : Nat} {k l : String}
    (h : step_name_str yaml_stem i k = step_name_str yaml_stem j l) : i = j := by
  unfold step_name_str at h
  have hd := congrArg String.data h
  simp only [String.data_append, List.append_assoc] at hd
  have hd2 := List.append_cancel_left hd
  have hd3 := List.append_cancel_left hd2
  have hd4 : (Nat.repr i).data ++ '_' :: ('_' :: (pathStem k).data)
      = (Nat.repr j).data ++ '_' :: ('_' :: (pathStem l).data) := hd3
  obtain ⟨hab, _⟩ := digits_sep_parse (Nat.repr i).data (Nat.repr j).data
    ('_' :: (pathStem k).data) ('_' :: (pathStem l).data)
    (repr_data_all_digits i) (repr_data_all_digits j) hd4
  exact nat_repr_injective (congrArg String.mk hab :
    String.mk (Nat.repr i).data = String.mk (Nat.repr j).data)

theorem dGet_eq_none_of_forall {α : Type} (d : List (String × α)) (key : String)
    (h : ∀ p ∈ d, p.1 ≠ key) : dGet d key = none := by
  induction d with
  | nil => rfl
  | cons p tl ih =>
    obtain ⟨k, v⟩ := p
    have hk : k ≠ key := h (k, v) (List.mem_cons_self _ _)
    simp only [dGet, if_neg hk]
    exact ih (fun q hq => h q (List.mem_cons_of_mem _ hq))

theorem dSet_append_of_fresh {α : Type} (d : List (String × α)) (key : String)
    (v : α) (h : dGet d key = none) : dSet d key v = d ++ [(key, v)] := by
  induction d with
  | nil => rfl
  | cons p tl ih =>
    obtain ⟨k, w⟩ := p
    by_cases hk : k = key
    · subst hk; simp [dGet] at h
    · simp only [dGet, if_neg hk] at h
      simp [dSet, hk, ih h]

theorem steps_to_dict_go_eq (yaml_stem : String) (steps : List (String × YVal)) :
    ∀ (i : Nat) (acc : List (String × YVal)),
      (∀ p ∈ acc, ∀ (j : Nat) (k' : String), i ≤ j →
        p.1 ≠ step_name_str yaml_stem j k') →
      steps_to_dict_go yaml_stem i steps acc
        = acc ++ (List.enumFrom i steps).map
            (fun p => (step_name_str yaml_stem p.1 p.2.1, p.2.2)) := by
  induction steps with
  | nil => intro i acc _; simp [steps_to_dict_go]
  | cons s rest ih =>
    intro i acc hacc
    obtain ⟨k, b⟩ := s
    have hfresh : dGet acc (step_name_str yaml_stem i k) = none :=
      dGet_eq_none_of_forall _ _ (fun p hp => hacc p hp i k (Nat.le_refl i))
    have hset := dSet_append_of_fresh acc (step_name_str yaml_stem i k) b hfresh
    have hrec := ih (i + 1) (acc ++ [(step_name_str yaml_stem i k, b)]) ?_
    · show steps_to_dict_go yaml_stem (i + 1) rest
          (dSet acc (step_name_str yaml_stem i k) b) = _
      rw [hset, hrec, List.append_assoc]
      simp [List.enumFrom]
    · intro p hp j k' hj
      rcases List.mem_append.mp hp with h | h
      · exact hacc p h j k' (by omega)
      · have hpe : p = (step_name_str yaml_stem i k, b) := by simpa using h
        subst hpe
        intro hne
        have := step_name_str_index_inj yaml_stem hne
        omega

theorem enumFrom_names_nodup (yaml_stem : String) (steps : List (String × YVal)) :
    ∀ i : Nat,
      (((List.enumFrom i steps).map
        (fun p => (step_name_str yaml_stem p.1 p.2.1, p.2.2))).map Prod.fst).Nodup := by
  induction steps with
  | nil => intro i; simp
  | cons s rest ih =>
    intro i
    obtain ⟨k, b⟩ := s
    simp only [List.enumFrom, List.map_cons, List.nodup_cons]
    constructor
    · intro hmem
      simp only [List.mem_map] at hmem
      obtain ⟨p, hp, hpeq⟩ := hmem
      obtain ⟨q, hq, hqe⟩ := hp
      obtain ⟨qi, qv⟩ := q
      have hge : i + 1 ≤ qi :=
        (List.mk_mem_enumFrom_iff_le_and_getElem?_sub.mp hq).1
      have hname : step_name_str yaml_stem qi qv.1 = step_name_str yaml_stem i k := by
        have hfst : p.1 = step_name_str yaml_stem qi qv.1 := by rw [← hqe]
        rw [← hfst, hpeq]
      have := step_name_str_index_inj yaml_stem hname
      omega
    · exact ih (i + 1)

/-- C6: for every input document, the emitted `steps:` mapping has exactly one
entry per input step, keyed by the mangled step name, and its iteration order
equals the sequence order of the input `steps:` list: the emitted mapping is
literally the input list enumerated in order, with each key mangled, and its
keys are pairwise distinct. -/
theorem C6_steps_dict_order (yaml_stem : String) (steps : List (String × YVal)) :
    steps_to_dict yaml_stem steps
      = (List.enum steps).map
          (fun p => (step_name_str yaml_stem p.1 p.2.1, p.2.2)) ∧
    ((steps_to_dict yaml_stem steps).map Prod.fst).Nodup := by
  have h := steps_to_dict_go_eq yaml_stem steps 0 [] (by simp)
  constructor
  · simpa [steps_to_dict, List.enum] using h
  · rw [steps_to_dict, h]
    simpa using enumFrom_names_nodup yaml_stem steps 0

theorem strMk_data (s : String) : String.mk s.data = s := by cases s; rfl

theorem args_required_clt_eq (in_tool : YVal) :
    ∀ ks : List String,
      (∀ k ∈ ks, ∃ e t, in_tool.mget k = some e ∧ e.isMap = true ∧
        e.mget "type" = some (.str t) ∧ t.data ≠ []) →
      args_required_clt in_tool ks = .ok (ks.filter (required_port in_tool)) := by
  intro ks
  induction ks with
  | nil => intro _; rfl
  | cons k rest ih =>
    intro h
    obtain ⟨e, t, he, hm, ht, htne⟩ := h k (List.mem_cons_self _ _)
    have hrest := ih (fun k' hk' => h k' (List.mem_cons_of_mem _ hk'))
    obtain ⟨c, hc⟩ : ∃ c, t.data.getLast? = some c := by
      cases hg : t.data.getLast? with
      | none => exact absurd (List.getLast?_eq_none_iff.mp hg) htne
      | some c => exact ⟨c, rfl⟩
    have htypeopt : clt_type_optional e = .ok (decide (c = '?')) := by
      simp [clt_type_optional, ht, hc]
    obtain ⟨ob, hopt, hreq⟩ :
        ∃ ob : Bool, clt_arg_optional e = .ok ob ∧
          required_port in_tool k = !ob := by
      cases hd : e.mget "default" with
      | none =>
        refine ⟨decide (c = '?'), by simp [clt_arg_optional, hm, hd, htypeopt], ?_⟩
        by_cases hcq : c = '?' <;> simp [required_port, he, hd, ht, hc, hcq]
      | some d =>
        by_cases hdt : d.truthy = true
        · refine ⟨true, by simp [clt_arg_optional, hm, hd, hdt], ?_⟩
          simp [required_port, he, hd, hdt, ht, hc]
        · refine ⟨decide (c = '?'),
            by simp [clt_arg_optional, hm, hd, hdt, htypeopt], ?_⟩
          by_cases hcq : c = '?' <;>
            simp [required_port, he, hd, hdt, ht, hc, hcq]
    cases ob with
    | true =>
      simp [args_required_clt, mgetE, he, hopt, hrest, bind, Except.bind, pure,
        Except.pure, List.filter_cons, hreq]
    | false =>
      simp [args_required_clt, mgetE, he, hopt, hrest, bind, Except.bind, pure,
        Except.pure, List.filter_cons, hreq]

/-- C8 (amended): for a tool of class `CommandLineTool` whose input entries
are well-formed mappings with nonempty `type` strings, an input port is in
`args_required` iff its entry has no *truthy* `default` value (a Python-falsy
default such as `0`, `""`, `false` or `null` does not exempt the port) and its
type string does not end with `?`; for a tool of class `Workflow`, every input
port is in `args_required`; for any other class value, compilation aborts with
a fatal error. -/
theorem C8_args_required_amended (tool in_tool : YVal)
    (hin : tool.mget "inputs" = some in_tool)
    (hwf : ∀ k ∈ in_tool.mkeys, ∃ e t, in_tool.mget k = some e ∧ e.isMap = true ∧
      e.mget "type" = some (.str t) ∧ t.data ≠ []) :
    (tool.mget "class" = some (.str "CommandLineTool") →
      args_required_of tool = .ok (in_tool.mkeys.filter (required_port in_tool))) ∧
    (tool.mget "class" = some (.str "Workflow") →
      args_required_of tool = .ok in_tool.mkeys) ∧
    (∀ c : YVal, tool.mget "class" = some c → c ≠ .str "CommandLineTool" →
      c ≠ .str "Workflow" →
      args_required_of tool = .error "Exception: Unknown class") := by
  refine ⟨fun hcls => ?_, fun hcls => ?_, fun c hcls hc1 hc2 => ?_⟩
  · simp [args_required_of, mgetE, hin, hcls, args_required_clt_eq in_tool _ hwf,
      bind, Except.bind, pure, Except.pure]
  · simp [args_required_of, mgetE, hin, hcls, bind, Except.bind, pure, Except.pure]
  · simp [args_required_of, mgetE, hin, hcls, hc1, hc2, bind, Except.bind, pure,
      Except.pure]

theorem C8_args_required_amended_witness :
    args_required_of c8w_tool = .ok ["p"] := by
  have h := C8_args_required_amended c8w_tool c8w_in_tool (by decide) ?_
  · rw [h.1 (by decide)]
    decide
  · intro k hk
    have hk2 : k = "p" ∨ k = "q" := by
      simpa [c8w_in_tool, YVal.mkeys] using hk
    rcases hk2 with hk2 | hk2 <;> subst hk2
    · exact ⟨.mcons "type" (.str "int") (.mcons "default" (.int 0) .mnil), "int",
        by decide, by decide, by decide, by decide⟩
    · exact ⟨.mcons "type" (.str "File?") .mnil, "File?",
        by decide, by decide, by decide, by decide⟩

/-- C8 counterexample: port `p` carries a `default` entry, yet the code places
it in `args_required` (the claim states that an input port with a `default` is
never in `args_required`).  Line 137 of `compiler.py` tests
`in_tool[arg].get('default')` for truthiness, not for presence, so the falsy
default `0` does not exempt the port. -/
theorem C8_counterexample :
    args_required_of c8_tool = .ok ["p"] ∧
    (c8_in_tool.mget "p").bind (fun e => e.mget "default") = some (.int 0) := by
  constructor <;> decide

/-- C2 counterexample: processing the call token `*missing` in a non-root
frame (`is_root = false`) with no `$defs` entry returns the state *unchanged*:
no warning diagnostic is produced, no placeholder workflow input is added to
`inputs_workflow`, and the step's value is not rewritten — contradicting the
claim, which requires a warning and a placeholder input named
`<mangled_step>___<port>`. -/
theorem C2_counterexample :
    processArg [] "w__step__0__toolB" false c2_in_tool c2_state "y"
      = .ok c2_state ∧
    c2_state.warnings = [] ∧ c2_state.inputs_workflow = [] := by
  refine ⟨by decide, rfl, rfl⟩

/-- C2 (amended): for every call token `*x` processed in a non-root frame
(`is_root = false`) whose name has no entry in the `$defs` table, compilation
does not abort and the frame state is left completely unchanged: no diagnostic
is recorded and no placeholder workflow input is created (the warning plus
placeholder are produced only in root frames). -/
theorem C2_unresolved_call_nonroot_amended (namespaces : List String)
    (step_name_i : String) (in_tool : YVal) (st : ArgState) (bin entry : YVal)
    (arg_key name t : String)
    (hbin : st.body.mget "in" = some bin)
    (hval : bin.mget arg_key = some (.str ("*" ++ name)))
    (hentry : in_tool.mget arg_key = some entry)
    (htype : entry.mget "type" = some (.str t))
    (hdefs : dGet st.defs name = none) :
    processArg namespaces step_name_i false in_tool st arg_key = .ok st := by
  have hdata : ("*" ++ name).data = '*' :: name.data := by
    simp [String.data_append]
  simp [processArg, mgetE, hbin, hval, hentry, htype, hdata, strMk_data, hdefs,
    bind, Except.bind, pure, Except.pure]

/-- C2 amended witness: the concrete non-root unresolved call. -/
theorem C2_unresolved_call_nonroot_amended_witness :
    processArg [] "w__step__0__toolB" false c2_in_tool c2_state "y"
      = .ok c2_state :=
  C2_unresolved_call_nonroot_amended [] "w__step__0__toolB" c2_in_tool c2_state
    (.mcons "y" (.str "*missing") .mnil) (.mcons "type" (.str "string") .mnil)
    "y" "missing" "string" (by decide) (by decide) (by decide) (by decide)
    (by decide)

/-- C7: definition tokens are registered at most once per compilation.  Since
the `$defs` table is threaded (shared, mutably in Python) through every frame
of the whole YAML tree, processing `&name` when `name` is already present in
`$defs` — wherever it was registered — raises the fatal duplicate-definition
error, and a first-time definition records `name ↦ (namespace path including
the defining step, defining port)` in `$defs` and rewrites the step's value to
the mangled workflow-input name `<step>___<port>`. -/
theorem C7_definition_uniqueness (namespaces : List String) (step_name_i : String)
    (is_root : Bool) (in_tool : YVal) (st : ArgState) (bin entry : YVal)
    (arg_key name t : String)
    (hbin : st.body.mget "in" = some bin)
    (hval : bin.mget arg_key = some (.str ("&" ++ name)))
    (hentry : in_tool.mget arg_key = some entry)
    (htype : entry.mget "type" = some (.str t)) :
    (dGet st.defs name = none →
      processArg namespaces step_name_i is_root in_tool st arg_key = .ok
        { st with
          inputs_workflow := dSet st.inputs_workflow (step_name_i ++ "___" ++ arg_key)
            (.mcons "type" (.str (stripQ t)) .mnil),
          inputs_file := dSet st.inputs_file (step_name_i ++ "___" ++ arg_key)
            (.str name, stripQ t),
          body := st.body.mset "in"
            (bin.mset arg_key (.str (step_name_i ++ "___" ++ arg_key))),
          defs := dSet st.defs name (namespaces ++ [step_name_i], arg_key) }) ∧
    (∀ d, dGet st.defs name = some d →
      processArg namespaces step_name_i is_root in_tool st arg_key
        = .error ("Exception: Error! Multiple definitions of &" ++ name ++ "!")) := by
  have hdata : ("&" ++ name).data = '&' :: name.data := by
    simp [String.data_append]
  constructor
  · intro hdefs
    simp [processArg, mgetE, hbin, hval, hentry, htype, hdata, strMk_data, hdefs,
      bind, Except.bind, pure, Except.pure]
  · intro d hdefs
    simp [processArg, mgetE, hbin, hval, hentry, htype, hdata, strMk_data, hdefs,
      bind, Except.bind, pure, Except.pure]

theorem C7_definition_uniqueness_witness :
    processArg [] "R__step__0__toolA" true c7_in_tool c7_state "x" = .ok
      { c7_state with
        inputs_workflow := dSet c7_state.inputs_workflow "R__step__0__toolA___x"
          (.mcons "type" (.str "string") .mnil),
        inputs_file := dSet c7_state.inputs_file "R__step__0__toolA___x"
          (.str "z", "string"),
        body := c7_state.body.mset "in"
          ((YVal.mcons "x" (.str "&z") .mnil).mset "x" (.str "R__step__0__toolA___x")),
        defs := dSet c7_state.defs "z" (["R__step__0__toolA"], "x") } :=
  (C7_definition_uniqueness [] "R__step__0__toolA" true c7_in_tool c7_state
    (.mcons "x" (.str "&z") .mnil) (.mcons "type" (.str "string") .mnil)
    "x" "z" "string" (by decide) (by decide) (by decide) (by decide)).1
    (by decide)

theorem find_producer_eq_of_max (tools : Tools) (steps_keys : List String)
    (t : String) :
    ∀ (i j2 : Nat) (q2 : String), j2 < i →
      producerOut tools steps_keys j2 t = some q2 →
      (∀ j', j2 < j' → j' < i → producerOut tools steps_keys j' t = none) →
      find_producer tools steps_keys i t = some (j2, q2) := by
  intro i
  induction i with
  | zero => intro j2 q2 h _ _; omega
  | succ i ih =>
    intro j2 q2 hji hm hmax
    by_cases hj : j2 = i
    · subst hj
      simp [find_producer, hm]
    · have hji2 : j2 < i := by omega
      have hnone : producerOut tools steps_keys i t = none :=
        hmax i (by omega) (by omega)
      simp only [find_producer, hnone]
      exact ih j2 q2 hji2 hm (fun j' h1 h2 => hmax j' h1 (by omega))

theorem first_matching_output_go_spec (outs : YVal) (t : String) :
    ∀ (ks : List String) (q : String),
      first_matching_output_go outs ks t = some q →
      ∃ pre post, ks = pre ++ q :: post ∧
        (∀ p ∈ pre, ∀ e, outs.mget p = some e → ¬entryTypeStr e = some t) ∧
        (∃ e, outs.mget q = some e ∧ entryTypeStr e = some t) := by
  intro ks
  induction ks with
  | nil => intro q h; simp [first_matching_output_go] at h
  | cons k rest ih =>
    intro q h
    cases he : outs.mget k with
    | none =>
      simp only [first_matching_output_go, he] at h
      obtain ⟨pre, post, h1, h2, h3⟩ := ih q h
      refine ⟨k :: pre, post, by rw [h1, List.cons_append], ?_, h3⟩
      intro p hp e hee
      rcases List.mem_cons.mp hp with hpk | hpk
      · subst hpk; rw [he] at hee; exact absurd hee (by simp)
      · exact h2 p hpk e hee
    | some e =>
      simp only [first_matching_output_go, he] at h
      by_cases ht : entryTypeStr e = some t
      · rw [if_pos ht] at h
        have hq : k = q := by injection h
        subst hq
        exact ⟨[], rest, rfl, by simp, ⟨e, he, ht⟩⟩
      · rw [if_neg ht] at h
        obtain ⟨pre, post, h1, h2, h3⟩ := ih q h
        refine ⟨k :: pre, post, by rw [h1, List.cons_append], ?_, h3⟩
        intro p hp e2 hee
        rcases List.mem_cons.mp hp with hpk | hpk
        · subst hpk
          rw [he] at hee
          have he2 : e = e2 := by injection hee
          rw [← he2]; exact ht
        · exact h2 p hpk e2 hee

/-- C9: for a required, unprovided, un-forwarded input port of step `i`, if
two earlier steps `j1 < j2 < i` both have a type-matching output and `j2` is
the largest matching index below `i`, edge inference selects step `j2` (the
most recent producer), and the port it selects is the first matching output of
that step in declaration order (no earlier declared output of step `j2`
matches). -/
theorem C9_most_recent_producer (tools : Tools) (steps_keys : List String)
    (t : String) (i j1 j2 : Nat) (q2 : String)
    (h12 : j1 < j2) (h2i : j2 < i)
    (hm1 : (producerOut tools steps_keys j1 t).isSome = true)
    (hm2 : producerOut tools steps_keys j2 t = some q2)
    (hmax : ∀ j', j2 < j' → j' < i → producerOut tools steps_keys j' t = none) :
    find_producer tools steps_keys i t = some (j2, q2) ∧
    (∀ key te outs, steps_keys.get? j2 = some key →
      dGet tools (pathStem key) = some te →
      te.2.mget "outputs" = some outs →
      ∃ pre post, outs.mkeys = pre ++ q2 :: post ∧
        (∀ p ∈ pre, ∀ e, outs.mget p = some e → ¬entryTypeStr e = some t) ∧
        (∃ e, outs.mget q2 = some e ∧ entryTypeStr e = some t)) := by
  constructor
  · exact find_producer_eq_of_max tools steps_keys t i j2 q2 h2i hm2 hmax
  · intro key te outs hkey hte houts
    have hfm : first_matching_output_go outs outs.mkeys t = some q2 := by
      simp only [producerOut, hkey, hte, first_matching_output, houts] at hm2
      exact hm2
    exact first_matching_output_go_spec outs t outs.mkeys q2 hfm

theorem C9_most_recent_producer_witness :
    find_producer c9_tools c9_steps_keys 2 "File" = some (1, "ob") :=
  (C9_most_recent_producer c9_tools c9_steps_keys "File" 2 0 1 "ob"
    (by omega) (by omega) (by decide) (by decide)
    (fun j' h1 h2 => by omega)).1

/-- C1: the embedding-independence property fails on this three-level input:
the sub-document produced for `S.yml` inside the compilation of `R.yml` wires
the forwarded call `*z` (whose definition lives in a sibling branch of `R`),
while the standalone compilation of `S.yml` silently drops the unresolved call
(non-root frames neither warn nor create a placeholder), leaving an empty
`in:` mapping and no workflow input.  The two documents differ even after
recursively removing all `run` keys. -/
theorem C1_embedding_independence_failure :
    removeRunKeys c1_embedded_S_doc ≠ removeRunKeys c1_standalone_S_doc ∧
    c1_sub_in c1_embedded_S_doc
      = some (.mcons "C__step__0__toolB___y" (.str "R__step__0__toolA/x") .mnil) ∧
    c1_sub_in c1_standalone_S_doc = some .mnil := by
  refine ⟨by decide, by decide, by decide⟩

/-- C3: when the input document already has a `requirements` mapping that does
not yet contain `SubworkflowFeatureRequirement`, compilation crashes with a
`ValueError`: line 53 of `compiler.py` builds
`dict(list(requirements.items()) + list(subworkreqdict))`, and
`list(subworkreqdict)` is the list of *keys* (one 29-character string), which
`dict` rejects.  The claim (and spec) say the requirement is added exactly
once without error whether or not a `requirements` mapping was present; the
no-requirements path and the already-present path do behave as claimed. -/
theorem C3_requirements_merge_crash :
    (compile_workflow true c1_fs 5 [] [] c1_tools true "Q" c3_doc).1
      = .error "ValueError: dictionary update sequence element has wrong length" ∧
    c1_standalone_S_doc.mget "requirements"
      = some (.mcons "SubworkflowFeatureRequirement"
          (.mcons "class" (.str "SubworkflowFeatureRequirement") .mnil) .mnil) ∧
    c3_doc2_reqs
      = some (.mcons "SubworkflowFeatureRequirement"
          (.mcons "class" (.str "SubworkflowFeatureRequirement") .mnil) .mnil) := by
  refine ⟨by decide, by decide, by decide⟩

/-- C4 counterexample: the duplicate `&a` aborts the frame with the fatal
duplicate-definition error, yet the `$defs` table passed in by the caller
(initially empty) comes back holding the entry registered by the failed frame
before the error — the caller *does* see the partial mutation, contradicting
the claim that the tables are left unchanged from the caller's perspective. -/
theorem C4_counterexample :
    c4_result.1 = .error "Exception: Error! Multiple definitions of &a!" ∧
    c4_result.2.1 = [("a", (["D__step__0__toolA"], "x"))] ∧
    c4_result.2.1 ≠ ([] : Defs) := by
  refine ⟨by decide, by decide, by decide⟩

theorem dSet_prefix_of_fresh {α : Type} (d : List (String × α)) (k : String)
    (v : α) (h : dGet d k = none) : d <+: dSet d k v := by
  rw [dSet_append_of_fresh d k v h]
  exact ⟨[(k, v)], rfl⟩

theorem processArg_defs_mono (namespaces : List String) (step_name_i : String)
    (is_root : Bool) (in_tool : YVal) (st st' : ArgState) (k : String)
    (h : processArg namespaces step_name_i is_root in_tool st k = .ok st') :
    st.defs <+: st'.defs := by
  unfold processArg at h
  simp only [bind, Except.bind, pure, Except.pure] at h
  repeat' split at h
  all_goals
    try simp only [literalUpdate] at h
  all_goals
    first
    | exact Except.noConfusion h
    | (injection h with h2
       try rw [← h2]
       try exact List.prefix_refl _
       try exact dSet_prefix_of_fresh _ _ _ (by assumption))

theorem processArgs_append (namespaces : List String) (step_name_i : String)
    (is_root : Bool) (in_tool : YVal) :
    ∀ (ks1 ks2 : List String) (st : ArgState),
      processArgs namespaces step_name_i is_root in_tool (ks1 ++ ks2) st
        = (match processArgs namespaces step_name_i is_root in_tool ks1 st with
           | .ok st1 => processArgs namespaces step_name_i is_root in_tool ks2 st1
           | .error e => .error e) := by
  intro ks1
  induction ks1 with
  | nil => intro ks2 st; rfl
  | cons k rest ih =>
    intro ks2 st
    show (match processArg namespaces step_name_i is_root in_tool st k with
          | .ok st2 => processArgs namespaces step_name_i is_root in_tool (rest ++ ks2) st2
          | .error e => .error (e, st)) = _
    cases hpa : processArg namespaces step_name_i is_root in_tool st k with
    | ok st2 => simp [processArgs, hpa, ih]
    | error e => simp [processArgs, hpa]

theorem processArgs_error_defs_mono (namespaces : List String)
    (step_name_i : String) (is_root : Bool) (in_tool : YVal) :
    ∀ (ks : List String) (st : ArgState) (e : String × ArgState),
      processArgs namespaces step_name_i is_root in_tool ks st = .error e →
      st.defs <+: e.2.defs := by
  intro ks
  induction ks with
  | nil => intro st e h; simp [processArgs] at h
  | cons k rest ih =>
    intro st e h
    simp only [processArgs] at h
    cases hpa : processArg namespaces step_name_i is_root in_tool st k with
    | ok st2 =>
      rw [hpa] at h
      exact (processArg_defs_mono namespaces step_name_i is_root in_tool
        st st2 k hpa).trans (ih st2 e h)
    | error e2 =>
      rw [hpa] at h
      injection h with h2
      subst h2
      exact List.prefix_refl _

/-- C4 (amended): when a compilation frame aborts with a fatal error, the
frame-local accumulators are discarded with it, but the `$defs` table — which
is threaded through all frames exactly as the Python code shares one mutable
dict — is *not* rolled back: processing that succeeded before the error point
leaves its `$defs` entries visible in the state carried out of the failure
(the prior table is a prefix of the final one). -/
theorem C4_failed_frame_defs_amended (namespaces : List String)
    (step_name_i : String) (is_root : Bool) (in_tool : YVal)
    (ks1 ks2 : List String) (st st1 : ArgState) (e : String × ArgState)
    (h1 : processArgs namespaces step_name_i is_root in_tool ks1 st = .ok st1)
    (h2 : processArgs namespaces step_name_i is_root in_tool ks2 st1 = .error e) :
    processArgs namespaces step_name_i is_root in_tool (ks1 ++ ks2) st = .error e ∧
    st1.defs <+: e.2.defs := by
  constructor
  · rw [processArgs_append namespaces step_name_i is_root in_tool ks1 ks2 st, h1]
    exact h2
  · exact processArgs_error_defs_mono namespaces step_name_i is_root in_tool
      ks2 st1 e h2

theorem C4_failed_frame_defs_amended_witness :
    processArgs [] "D__step__0__t" true c4w_in_tool (["x"] ++ ["w"]) c4w_st
      = .error ("Exception: Error! Multiple definitions of &a!", c4w_st1) ∧
    c4w_st1.defs <+: c4w_st1.defs :=
  C4_failed_frame_defs_amended [] "D__step__0__t" true c4w_in_tool ["x"] ["w"]
    c4w_st c4w_st1 ("Exception: Error! Multiple definitions of &a!", c4w_st1)
    (by decide) (by decide)

theorem YVal.mget_mset_self (b : YVal) (k : String) (v : YVal) :
    (b.mset k v).mget k = some v := by
  induction b with
  | mcons k2 v2 tl ihv ihtl =>
    by_cases hk : k2 = k
    · subst hk; simp [YVal.mset, YVal.mget]
    · simp [YVal.mset, YVal.mget, hk, ihtl]
  | _ => simp [YVal.mset, YVal.mget]

theorem YVal.mget_mset_ne (b : YVal) (k k' : String) (v : YVal) (h : k ≠ k') :
    (b.mset k v).mget k' = b.mget k' := by
  induction b with
  | mcons k2 v2 tl ihv ihtl =>
    by_cases hk : k2 = k
    · subst hk
      simp [YVal.mset, YVal.mget, h]
    · by_cases hk' : k2 = k'
      · subst hk'; simp [YVal.mset, YVal.mget, hk]
      · simp [YVal.mset, YVal.mget, hk, hk', ihtl]
  | _ => simp [YVal.mset, YVal.mget, h]

theorem YVal.mset_mset (b : YVal) (k : String) (v w : YVal) :
    (b.mset k v).mset k w = b.mset k w := by
  induction b with
  | mcons k2 v2 tl ihv ihtl =>
    by_cases hk : k2 = k
    · subst hk; simp [YVal.mset]
    · simp [YVal.mset, hk, ihtl]
  | _ => simp [YVal.mset]

theorem YVal.truthy_mset (b : YVal) (k : String) (v : YVal) :
    (b.mset k v).truthy = true := by
  induction b with
  | mcons k2 v2 tl ihv ihtl =>
    by_cases hk : k2 = k
    · subst hk; simp [YVal.mset, YVal.truthy]
    · simp [YVal.mset, YVal.truthy, hk]
  | _ => simp [YVal.mset, YVal.truthy]

theorem mapIdentity_mget (ks : List String) (k : String) (h : k ∈ ks) :
    (mapIdentity ks).mget k = some (.str k) := by
  induction ks with
  | nil => simp at h
  | cons k2 rest ih =>
    by_cases hk : k2 = k
    · subst hk
      simp [mapIdentity, YVal.ofMap, YVal.mget]
    · rcases List.mem_cons.mp h with hh | hh
      · exact absurd hh.symm hk
      · simpa [mapIdentity, YVal.ofMap, YVal.mget, hk] using ih hh

theorem dGet_dSet_self {α : Type} (d : List (String × α)) (k : String) (v : α) :
    dGet (dSet d k v) k = some v := by
  induction d with
  | nil => simp [dSet, dGet]
  | cons p tl ih =>
    obtain ⟨k2, v2⟩ := p
    by_cases hk : k2 = k
    · subst hk; simp [dSet, dGet]
    · simp [dSet, dGet, hk, ih]

theorem dGet_dSet_ne {α : Type} (d : List (String × α)) (k k' : String) (v : α)
    (h : k ≠ k') : dGet (dSet d k v) k' = dGet d k' := by
  induction d with
  | nil => simp [dSet, dGet, h]
  | cons p tl ih =>
    obtain ⟨k2, v2⟩ := p
    by_cases hk : k2 = k
    · subst hk
      simp [dSet, dGet, h]
    · by_cases hk' : k2 = k'
      · subst hk'; simp [dSet, dGet, hk]
      · simp [dSet, dGet, hk, hk', ih]

theorem str_append_left_cancel (a : String) {b c : String}
    (h : a ++ b = a ++ c) : b = c := by
  have hd := congrArg String.data h
  simp only [String.data_append] at hd
  have := List.append_cancel_left hd
  cases b; cases c
  exact congrArg String.mk this

theorem in_name_inj (step_name_i : String) {k k' : String}
    (h : step_name_i ++ "___" ++ k = step_name_i ++ "___" ++ k') : k = k' := by
  rw [String.append_assoc, String.append_assoc] at h
  exact str_append_left_cancel _ (str_append_left_cancel _ h)

theorem processArg_literal (namespaces : List String) (step_name_i : String)
    (is_root : Bool) (in_tool : YVal) (st : ArgState) (bin e : YVal)
    (k t : String) (c : Char) (cs : List Char)
    (hbin : st.body.mget "in" = some bin)
    (hkv : bin.mget k = some (.str k))
    (hdata : k.data = c :: cs)
    (hc1 : c ≠ '&') (hc2 : c ≠ '*')
    (hentry : in_tool.mget k = some e)
    (htype : e.mget "type" = some (.str t)) :
    processArg namespaces step_name_i is_root in_tool st k
      = .ok (literalUpdate st bin k (step_name_i ++ "___" ++ k) (stripQ t) (.str k)) := by
  simp [processArg, mgetE, hbin, hkv, hentry, htype, hdata, hc1, hc2,
    bind, Except.bind, pure, Except.pure]

theorem processArgs_identity_literal (namespaces : List String)
    (step_name_i : String) (is_root : Bool) (in_tool : YVal) :
    ∀ (ks : List String) (st : ArgState) (bin : YVal),
      st.body.mget "in" = some bin →
      (∀ k ∈ ks, bin.mget k = some (.str k)) →
      (∀ k ∈ ks, ∃ c cs, k.data = c :: cs ∧ c ≠ '&' ∧ c ≠ '*') →
      (∀ k ∈ ks, ∃ e t, in_tool.mget k = some e ∧ e.mget "type" = some (.str t)) →
      ks.Nodup →
      ∃ stF binF,
        processArgs namespaces step_name_i is_root in_tool ks st = .ok stF ∧
        stF.body.mget "in" = some binF ∧
        (∀ k ∈ ks, binF.mget k = some (.str (step_name_i ++ "___" ++ k))) ∧
        (∀ k ∈ ks, ∃ t,
          (in_tool.mget k).bind (fun e => e.mget "type") = some (.str t) ∧
          dGet stF.inputs_file (step_name_i ++ "___" ++ k)
            = some (.str k, stripQ t) ∧
          dGet stF.inputs_workflow (step_name_i ++ "___" ++ k)
            = some (.mcons "type" (.str (stripQ t)) .mnil)) ∧
        stF.defs = st.defs ∧ stF.calls = st.calls ∧ stF.warnings = st.warnings ∧
        (∀ k', ¬k' ∈ ks → binF.mget k' = bin.mget k') ∧
        (∀ n, (∀ k' ∈ ks, n ≠ step_name_i ++ "___" ++ k') →
          dGet stF.inputs_file n = dGet st.inputs_file n ∧
          dGet stF.inputs_workflow n = dGet st.inputs_workflow n) := by
  intro ks
  induction ks with
  | nil =>
    intro st bin hbin _ _ _ _
    exact ⟨st, bin, rfl, hbin, by simp, by simp, rfl, rfl, rfl,
      fun k' _ => rfl, fun n _ => ⟨rfl, rfl⟩⟩
  | cons k rest ih =>
    intro st bin hbin hvals hheads hwf hnd
    obtain ⟨c, cs, hdata, hc1, hc2⟩ := hheads k (List.mem_cons_self _ _)
    obtain ⟨e, t, hentry, htype⟩ := hwf k (List.mem_cons_self _ _)
    have hkv := hvals k (List.mem_cons_self _ _)
    have hpa := processArg_literal namespaces step_name_i is_root in_tool st bin e
      k t c cs hbin hkv hdata hc1 hc2 hentry htype
    have hknotin : ¬k ∈ rest := (List.nodup_cons.mp hnd).1
    have hbin1 :
        (literalUpdate st bin k (step_name_i ++ "___" ++ k) (stripQ t)
          (.str k)).body.mget "in"
          = some (bin.mset k (.str (step_name_i ++ "___" ++ k))) := by
      simp [literalUpdate, YVal.mget_mset_self]
    obtain ⟨stF, binF, hrun, hbinF, hkeysF, hfileF, hdefsF, hcallsF, hwarnF,
        hframe, hframe2⟩ :=
      ih (literalUpdate st bin k (step_name_i ++ "___" ++ k) (stripQ t) (.str k))
        (bin.mset k (.str (step_name_i ++ "___" ++ k))) hbin1
        (fun k' hk' => by
          rw [YVal.mget_mset_ne bin k k' _ (fun hh => hknotin (hh ▸ hk'))]
          exact hvals k' (List.mem_cons_of_mem _ hk'))
        (fun k' hk' => hheads k' (List.mem_cons_of_mem _ hk'))
        (fun k' hk' => hwf k' (List.mem_cons_of_mem _ hk'))
        (List.nodup_cons.mp hnd).2
    refine ⟨stF, binF, ?_, hbinF, ?_, ?_, ?_, ?_, ?_, ?_, ?_⟩
    · simp only [processArgs, hpa, hrun]
    · intro k' hk'
      rcases List.mem_cons.mp hk' with hh | hh
      · subst hh
        rw [hframe k' hknotin, YVal.mget_mset_self]
      · exact hkeysF k' hh
    · intro k' hk'
      rcases List.mem_cons.mp hk' with hh | hh
      · subst hh
        refine ⟨t, by simp [hentry, htype], ?_, ?_⟩
        · have hfr := (hframe2 (step_name_i ++ "___" ++ k') (fun k2 hk2 heq =>
            hknotin ((in_name_inj step_name_i heq) ▸ hk2))).1
          rw [hfr]
          simp [literalUpdate, dGet_dSet_self]
        · have hfr := (hframe2 (step_name_i ++ "___" ++ k') (fun k2 hk2 heq =>
            hknotin ((in_name_inj step_name_i heq) ▸ hk2))).2
          rw [hfr]
          simp [literalUpdate, dGet_dSet_self]
      · exact hfileF k' hh
    · rw [hdefsF]; rfl
    · rw [hcallsF]; rfl
    · rw [hwarnF]; rfl
    · intro k' hk'
      have hk'rest : ¬k' ∈ rest := fun hh => hk' (List.mem_cons_of_mem _ hh)
      have hk'k : k' ≠ k := fun hh => hk' (hh ▸ List.mem_cons_self _ _)
      rw [hframe k' hk'rest, YVal.mget_mset_ne bin k k' _ (fun hh => hk'k hh.symm)]
    · intro n hn
      have h1 := hframe2 n (fun k2 hk2 => hn k2 (List.mem_cons_of_mem _ hk2))
      have hnk : n ≠ step_name_i ++ "___" ++ k := hn k (List.mem_cons_self _ _)
      constructor
      · rw [h1.1]
        simp only [literalUpdate]
        exact dGet_dSet_ne _ _ _ _ (fun hh => hnk hh.symm)
      · rw [h1.2]
        simp only [literalUpdate]
        exact dGet_dSet_ne _ _ _ _ (fun hh => hnk hh.symm)

theorem args_required_of_workflow (tool in_tool : YVal)
    (hin : tool.mget "inputs" = some in_tool)
    (hcls : tool.mget "class" = some (.str "Workflow")) :
    args_required_of tool = .ok in_tool.mkeys := by
  simp [args_required_of, mgetE, hin, hcls, bind, Except.bind, pure, Except.pure]

/-- C10: for every step whose tool document has class `Workflow`, the step
processor replaces the step's `in:` mapping with the identity mapping
`{port: port}` over all tool inputs before the provided-argument loop runs;
consequently the argument values the author wrote are discarded — any
substitute mapping with the same keys produces the identical result — and each
originally provided key is subsequently processed as a literal whose value is
the port's own name: it is rewritten to the mangled input name and the
inputs-file records the pair (port name, type), while unprovided ports keep
their identity value when the loop ends. -/
theorem C10_workflow_in_replacement (namespaces : List String)
    (step_name_i : String) (is_root : Bool) (tool in_tool m : YVal)
    (st : ArgState)
    (hcls : tool.mget "class" = some (.str "Workflow"))
    (hin : tool.mget "inputs" = some in_tool)
    (hbody : st.body.truthy = true)
    (hm : st.body.mget "in" = some m)
    (hkeys : ∀ k ∈ m.mkeys, k ∈ in_tool.mkeys)
    (hheads : ∀ k ∈ m.mkeys, ∃ c cs, k.data = c :: cs ∧ c ≠ '&' ∧ c ≠ '*')
    (hwf : ∀ k ∈ m.mkeys, ∃ e t, in_tool.mget k = some e ∧
      e.mget "type" = some (.str t))
    (hnd : m.mkeys.Nodup) :
    ∃ stF binF,
      provided_phase namespaces step_name_i is_root tool st
        = .ok (m.mkeys, in_tool.mkeys,
            in_tool.mkeys.filter (fun a => dHas st.calls a), stF) ∧
      stF.body.mget "in" = some binF ∧
      (∀ k ∈ m.mkeys, binF.mget k = some (.str (step_name_i ++ "___" ++ k))) ∧
      (∀ k ∈ m.mkeys, ∃ t,
        (in_tool.mget k).bind (fun e => e.mget "type") = some (.str t) ∧
        dGet stF.inputs_file (step_name_i ++ "___" ++ k)
          = some (.str k, stripQ t)) ∧
      (∀ k ∈ in_tool.mkeys, ¬k ∈ m.mkeys → binF.mget k = some (.str k)) ∧
      (∀ m2 : YVal, m2.mkeys = m.mkeys →
        provided_phase namespaces step_name_i is_root tool
          { st with body := st.body.mset "in" m2 }
          = provided_phase namespaces step_name_i is_root tool st) := by
  have hreq := args_required_of_workflow tool in_tool hin hcls
  have hbody1 :
      ({ st with body := st.body.mset "in" (mapIdentity in_tool.mkeys) } :
        ArgState).body.mget "in" = some (mapIdentity in_tool.mkeys) :=
    YVal.mget_mset_self _ _ _
  obtain ⟨stF, binF, hrun, hbinF, hkeysF, hfileF, hdefsF, hcallsF, hwarnF,
      hframe, hframe2⟩ :=
    processArgs_identity_literal namespaces step_name_i is_root in_tool m.mkeys
      { st with body := st.body.mset "in" (mapIdentity in_tool.mkeys) }
      (mapIdentity in_tool.mkeys) hbody1
      (fun k hk => mapIdentity_mget _ k (hkeys k hk))
      hheads hwf hnd
  have hphase : provided_phase namespaces step_name_i is_root tool st
      = .ok (m.mkeys, in_tool.mkeys,
          in_tool.mkeys.filter (fun a => dHas st.calls a), stF) := by
    simp only [provided_phase, hbody, hm, hreq, hcls, hin, if_true, if_pos,
      Option.getD_some]
    rw [hrun]
  refine ⟨stF, binF, hphase, hbinF, hkeysF, ?_, ?_, ?_⟩
  · intro k hk
    obtain ⟨t, h1, h2, _⟩ := hfileF k hk
    exact ⟨t, h1, h2⟩
  · intro k hkin hknotm
    rw [hframe k hknotm, mapIdentity_mget _ k hkin]
  · intro m2 hm2
    have hb2 : ({ st with body := st.body.mset "in" m2 } : ArgState).body.truthy
        = true := YVal.truthy_mset _ _ _
    have hb2m : ({ st with body := st.body.mset "in" m2 } : ArgState).body.mget "in"
        = some m2 := YVal.mget_mset_self _ _ _
    have hbodyeq : (st.body.mset "in" m2).mset "in" (mapIdentity in_tool.mkeys)
        = st.body.mset "in" (mapIdentity in_tool.mkeys) :=
      YVal.mset_mset _ _ _ _
    simp only [provided_phase, hb2, hb2m, hm2, hbody, hm, hreq, hcls, if_true,
      if_pos, Option.getD_some]
    rw [hbodyeq]

theorem C10_workflow_in_replacement_witness :
    ∃ stF binF,
      provided_phase [] "W__step__0__sub" true c10_tool c10_st
        = .ok (["a"], ["a", "b"], [], stF) ∧
      stF.body.mget "in" = some binF ∧
      binF.mget "a" = some (.str "W__step__0__sub___a") ∧
      binF.mget "b" = some (.str "b") := by
  obtain ⟨stF, binF, h1, h2, h3, _, h5, _⟩ :=
    C10_workflow_in_replacement [] "W__step__0__sub" true c10_tool c10_in_tool
      c10_m c10_st (by decide) (by decide) (by decide) (by decide)
      (by decide)
      (by
        intro k hk
        have hk2 : k = "a" := by simpa [c10_m, YVal.mkeys] using hk
        subst hk2
        exact ⟨'a', [], rfl, by decide, by decide⟩)
      (by
        intro k hk
        have hk2 : k = "a" := by simpa [c10_m, YVal.mkeys] using hk
        subst hk2
        exact ⟨.mcons "type" (.str "File") .mnil, "File", by decide, by decide⟩)
      (by decide)
  exact ⟨stF, binF, h1, h2, h3 "a" (by decide), h5 "b" (by decide) (by decide)⟩

end Wic
